import Mathlib

/-!
Shallow embedding of the sync-storage core (packages/core/src): the sqlite
adapter (`SqliteStorageAdapter`), the redis adapter (`RedisStorageAdapter`),
the pure utilities (`utils.ts`) and the storage service (`StorageService`),
together with proofs settling the frozen claims about them.

Modelling conventions, used throughout:
* Timestamps are integer milliseconds (`Millis := Nat`).  The code stores
  ISO-8601 strings produced by `Date.toISOString()`; these have a fixed
  length, so their lexicographic order coincides with the numeric order of
  the underlying epoch milliseconds, and `isExpired`'s string comparison
  `expiresAt <= now.toISOString()` becomes `≤` on `Millis`.
* JSON values are represented by their canonical serialisation (a `String`):
  `serializeJson` is the identity on this representation and
  `parseJson ∘ serializeJson` is the identity, which is how the adapters use
  the pair.
* A SQL table is a list of rows; the composite primary key is kept unique by
  the operations themselves (`INSERT … ON CONFLICT DO UPDATE` updates the
  matching row, otherwise appends).
* `Array.prototype.sort` (stable in V8) and SQL `ORDER BY` are modelled with
  the stable `List.insertionSort`.
-/

namespace SyncStorage

abbrev Millis := Nat

/-- Byte-order comparison of keys.  SQLite compares TEXT with the BINARY
collation (UTF-8 bytes) and JavaScript `<` compares code units; both agree
with code-point lexicographic order, which this implements. -/
def charListLt : List Char → List Char → Bool
  | [], [] => false
  | [], _ :: _ => true
  | _ :: _, [] => false
  | x :: xs, y :: ys => if x < y then true else if y < x then false else charListLt xs ys

def strLt (a b : String) : Bool := charListLt a.data b.data

def strLe (a b : String) : Bool := !(strLt b a)

/-- `utils.ts` `isExpired`: expired iff `expiresAt` is set and `≤ now`. -/
def isExpired (expiresAt : Option Millis) (now : Millis) : Bool :=
  match expiresAt with
  | none => false
  | some t => decide (t ≤ now)

/-- `utils.ts` `etagFromVersion`: the quoted decimal version. -/
def etagFromVersion (version : Nat) : String :=
  "\"" ++ toString version ++ "\""

/-- `types.ts` `StorageScope`.  The `namespace` field is renamed `nsp`
(`namespace` is a Lean keyword). -/
structure Scope where
  tenantId : String
  nsp : String
  userId : String
deriving DecidableEq

/-- One row of the `items` table (sqlite/turso schema). -/
structure Row where
  tenantId : String
  nsp : String
  userId : String
  key : String
  valueJson : String
  version : Nat
  expiresAt : Option Millis
  createdAt : Millis
  updatedAt : Millis
deriving DecidableEq

abbrev Table := List Row

/-- `types.ts` `StoredItem` (the `value` field holds the canonical JSON
serialisation of the value). -/
structure StoredItem where
  key : String
  value : String
  version : Nat
  etag : String
  createdAt : Millis
  updatedAt : Millis
  expiresAt : Option Millis
deriving DecidableEq

/-- The scope-equality part of the SQL `WHERE` clauses. -/
def scopeMatches (s : Scope) (r : Row) : Bool :=
  r.tenantId == s.tenantId && r.nsp == s.nsp && r.userId == s.userId

/-- The full primary-key equality used by `put`'s conflict target and
`delete`'s `WHERE`. -/
def pkMatches (s : Scope) (key : String) (r : Row) : Bool :=
  scopeMatches s r && r.key == key

/-- `SqliteStorageAdapter.getRow`: one row matching scope and key, with the
not-expired clause added when `onlyActive`. -/
def getRow (tbl : Table) (s : Scope) (key : String) (onlyActive : Bool) (now : Millis) :
    Option Row :=
  tbl.find? (fun r =>
    scopeMatches s r && r.key == key && (!onlyActive || !isExpired r.expiresAt now))

/-- `SqliteStorageAdapter.toStoredItem`. -/
def toStoredItem (r : Row) : StoredItem :=
  ⟨r.key, r.valueJson, r.version, etagFromVersion r.version, r.createdAt, r.updatedAt,
    r.expiresAt⟩

/-- `SqliteStorageAdapter.get`: the active row, mapped. -/
def sqlGet (tbl : Table) (s : Scope) (key : String) (now : Millis) : Option StoredItem :=
  (getRow tbl s key true now).map toStoredItem

/-- `adapters/types.ts` `PutOptions`. -/
structure PutOptions where
  ttlSeconds : Option Nat := none
  ifMatchVersion : Option Nat := none
deriving DecidableEq

/-- The error kinds the modelled operations raise (`errors.ts`). -/
inductive Err
  | validation
  | precondition
deriving DecidableEq

instance {ε α : Type} [DecidableEq ε] [DecidableEq α] : DecidableEq (Except ε α) := fun a b =>
  match a, b with
  | .error e, .error f => decidable_of_iff (e = f) (by simp)
  | .error _, .ok _ => isFalse (fun h => Except.noConfusion h)
  | .ok _, .error _ => isFalse (fun h => Except.noConfusion h)
  | .ok x, .ok y => decidable_of_iff (x = y) (by simp)

/-- The `activeCurrent` binding of `SqliteStorageAdapter.put`: the fetched
row, if it is not expired. -/
def activeCurrentSql (tbl : Table) (s : Scope) (key : String) (now : Millis) : Option Row :=
  match getRow tbl s key false now with
  | some r => if isExpired r.expiresAt now then none else some r
  | none => none

/-- The new `expiresAt` computed by `put`: `options.ttlSeconds` is truthy
(present and non-zero) ? now + ttl*1000 : null. -/
def putExpiresAt (ttlSeconds : Option Nat) (now : Millis) : Option Millis :=
  match ttlSeconds with
  | some t => if t == 0 then none else some (now + t * 1000)
  | none => none

/-- `SqliteStorageAdapter.put`.  Returns the result (or the raised error)
together with the table afterwards.  Note the `ON CONFLICT DO UPDATE` branch
sets `valueJson`, `version`, `expiresAt`, `updatedAt` — not `createdAt`. -/
def sqlPut (tbl : Table) (s : Scope) (key valueJson : String) (opts : PutOptions)
    (now : Millis) : Except Err StoredItem × Table :=
  let activeCurrent := activeCurrentSql tbl s key now
  let precondFail : Bool :=
    match opts.ifMatchVersion, activeCurrent with
    | some _, none => true
    | some m, some r => r.version != m
    | none, _ => false
  if precondFail then (.error .precondition, tbl)
  else
    let version := match activeCurrent with
      | some r => r.version + 1
      | none => 1
    let expiresAt := putExpiresAt opts.ttlSeconds now
    let createdAt := match activeCurrent with
      | some r => r.createdAt
      | none => now
    let tbl' :=
      if tbl.any (pkMatches s key) then
        tbl.map (fun r =>
          if pkMatches s key r then
            { r with
                valueJson := valueJson
                version := version
                expiresAt := expiresAt
                updatedAt := now }
          else r)
      else
        tbl ++ [⟨s.tenantId, s.nsp, s.userId, key, valueJson, version, expiresAt,
          createdAt, now⟩]
    (.ok ⟨key, valueJson, version, etagFromVersion version, createdAt, now, expiresAt⟩, tbl')

/-- `SqliteStorageAdapter.delete`. -/
def sqlDelete (tbl : Table) (s : Scope) (key : String) (ifMatchVersion : Option Nat)
    (now : Millis) : Except Err Bool × Table :=
  match getRow tbl s key false now with
  | none => (.ok false, tbl)
  | some current =>
    match ifMatchVersion with
    | some m =>
      if isExpired current.expiresAt now || current.version != m then
        (.error .precondition, tbl)
      else
        (.ok (!isExpired current.expiresAt now), tbl.filter (fun r => !pkMatches s key r))
    | none =>
      (.ok (!isExpired current.expiresAt now), tbl.filter (fun r => !pkMatches s key r))

/-- `SqliteStorageAdapter.batchGet`: one `get` per requested key. -/
def sqlBatchGet (tbl : Table) (s : Scope) (keys : List String) (now : Millis) :
    List (String × Option StoredItem) :=
  keys.map (fun k => (k, sqlGet tbl s k now))

/-- `adapters/types.ts` `BatchPutEntry` (the value as canonical JSON). -/
structure BatchPutEntry where
  key : String
  valueJson : String
  ttlSeconds : Option Nat := none
  ifMatchVersion : Option Nat := none
deriving DecidableEq

/-- `SqliteStorageAdapter.batchPut`: sequential `put`s; the first raised
error propagates, keeping earlier writes. -/
def sqlBatchPut (tbl : Table) (s : Scope) (entries : List BatchPutEntry) (now : Millis) :
    Except Err (List (String × StoredItem)) × Table :=
  match entries with
  | [] => (.ok [], tbl)
  | e :: rest =>
    match sqlPut tbl s e.key e.valueJson ⟨e.ttlSeconds, e.ifMatchVersion⟩ now with
    | (.error err, tbl') => (.error err, tbl')
    | (.ok item, tbl') =>
      match sqlBatchPut tbl' s rest now with
      | (.ok items, tbl'') => (.ok ((e.key, item) :: items), tbl'')
      | (.error err, tbl'') => (.error err, tbl'')

/-! Cursors.  `utils.ts` encodes the raw UTF-8 bytes of the key in unpadded
base64url (`Buffer.from(key, 'utf8').toString('base64url')`) and decodes with
the inverse pair.  Both platform primitives are modelled bit-faithfully. -/

/-- UTF-8 encoding of one code point. -/
def utf8EncodeChar (c : Char) : List Nat :=
  let n := c.toNat
  if n < 128 then [n]
  else if n < 2048 then [192 + n / 64, 128 + n % 64]
  else if n < 65536 then [224 + n / 4096, 128 + n / 64 % 64, 128 + n % 64]
  else [240 + n / 262144, 128 + n / 4096 % 64, 128 + n / 64 % 64, 128 + n % 64]

def utf8Encode : List Char → List Nat
  | [] => []
  | c :: cs => utf8EncodeChar c ++ utf8Encode cs

def replacementChar : Char := Char.ofNat 65533

/-- Lenient UTF-8 decoding (Node's `buffer.toString('utf8')` never throws),
written with a fuel argument for structural recursion; every step consumes at
least one byte, so fuel equal to the byte count (as supplied by
`utf8Decode`) never runs out. -/
def utf8DecodeGo : Nat → List Nat → List Char
  | _, [] => []
  | 0, _ :: _ => []
  | fuel + 1, b :: rest =>
    if b < 128 then Char.ofNat b :: utf8DecodeGo fuel rest
    else if b < 192 then replacementChar :: utf8DecodeGo fuel rest
    else if b < 224 then
      match rest with
      | b2 :: rest2 => Char.ofNat ((b - 192) * 64 + b2 % 64) :: utf8DecodeGo fuel rest2
      | [] => [replacementChar]
    else if b < 240 then
      match rest with
      | b2 :: b3 :: rest3 =>
        Char.ofNat ((b - 224) * 4096 + b2 % 64 * 64 + b3 % 64) :: utf8DecodeGo fuel rest3
      | _ => [replacementChar]
    else
      match rest with
      | b2 :: b3 :: b4 :: rest4 =>
        Char.ofNat ((b - 240) * 262144 + b2 % 64 * 4096 + b3 % 64 * 64 + b4 % 64) ::
          utf8DecodeGo fuel rest4
      | _ => [replacementChar]

def utf8Decode (l : List Nat) : List Char := utf8DecodeGo l.length l

def b64Alphabet : List Char :=
  ("ABCDEFGHIJKLMNOPQRSTUVWXYZabcdefghijklmnopqrstuvwxyz0123456789-_").data

def b64Char (n : Nat) : Char := b64Alphabet.getD n ('A')

def b64Val (c : Char) : Nat := b64Alphabet.indexOf c

/-- Unpadded base64url of a byte sequence. -/
def base64urlEncode : List Nat → List Char
  | [] => []
  | [b1] => [b64Char (b1 / 4), b64Char (b1 % 4 * 16)]
  | [b1, b2] => [b64Char (b1 / 4), b64Char (b1 % 4 * 16 + b2 / 16), b64Char (b2 % 16 * 4)]
  | b1 :: b2 :: b3 :: rest =>
    b64Char (b1 / 4) :: b64Char (b1 % 4 * 16 + b2 / 16) ::
      b64Char (b2 % 16 * 4 + b3 / 64) :: b64Char (b3 % 64) :: base64urlEncode rest

def base64urlDecode : List Char → List Nat
  | [] => []
  | [_] => []
  | [c1, c2] => [b64Val c1 * 4 + b64Val c2 / 16]
  | [c1, c2, c3] =>
    [b64Val c1 * 4 + b64Val c2 / 16, b64Val c2 % 16 * 16 + b64Val c3 / 4]
  | c1 :: c2 :: c3 :: c4 :: rest =>
    (b64Val c1 * 4 + b64Val c2 / 16) :: (b64Val c2 % 16 * 16 + b64Val c3 / 4) ::
      (b64Val c3 % 4 * 64 + b64Val c4) :: base64urlDecode rest

/-- `utils.ts` `encodeCursor`. -/
def encodeCursor (key : String) : String :=
  String.mk (base64urlEncode (utf8Encode key.data))

/-- `utils.ts` `decodeCursor` (falsy cursor, i.e. absent or empty, gives
null). -/
def decodeCursor : Option String → Option String
  | none => none
  | some c => if c == "" then none else some (String.mk (utf8Decode (base64urlDecode c.data)))

/-- `adapters/types.ts` `ListOptions` (the `prefix` field is renamed `pfx`). -/
structure ListOptions where
  pfx : Option String := none
  cursor : Option String := none
  limit : Option Nat := none
deriving DecidableEq

/-- `types.ts` `ListResult`. -/
structure ListResult where
  items : List StoredItem
  nextCursor : Option String
deriving DecidableEq

/-- SQLite's `sqlite3UpperToLower` restricted to ASCII: the default `LIKE`
folds the bytes `A`–`Z` to lower case and compares every other character
exactly. -/
def asciiToLower (c : Char) : Char :=
  if 65 ≤ c.toNat ∧ c.toNat ≤ 90 then Char.ofNat (c.toNat + 32) else c

/-- SQLite's `patternCompare` for `LIKE` without `ESCAPE` (`matchAll` `'%'`,
`matchOne` `'_'`, `noCase` over ASCII), in its naive recursive form: the C
code's absorption of `'%'`/`'_'` runs and its first-occurrence scan after a
`'%'` are search optimisations of this same match relation.  The fuel
argument is only a termination device: every branch consumes a pattern or a
string character, so `pat.length + str.length + 1` always suffices. -/
def likeMatchGo : Nat → List Char → List Char → Bool
  | 0, _, _ => false
  | _ + 1, [], s => s.isEmpty
  | f + 1, pc :: p, s =>
    if pc = ('%') then
      likeMatchGo f p s ||
        (match s with
         | [] => false
         | _ :: s2 => likeMatchGo f (pc :: p) s2)
    else
      match s with
      | [] => false
      | sc :: s2 =>
        if pc = ('_') then likeMatchGo f p s2
        else if asciiToLower pc = asciiToLower sc then likeMatchGo f p s2
        else false

def likeMatch (pat str : List Char) : Bool :=
  likeMatchGo (pat.length + str.length + 1) pat str

/-- The `WHERE` clauses of `SqliteStorageAdapter.list`: scope, not expired,
`LIKE 'prefix%'` when a (truthy) prefix is given, `key > cursorKey` when the
decoded cursor is truthy. -/
def listRowMatches (s : Scope) (pfx : Option String) (cursorKey : Option String)
    (now : Millis) (r : Row) : Bool :=
  scopeMatches s r && !isExpired r.expiresAt now &&
    (match pfx with
     | some p => if p == "" then true else likeMatch (p.data ++ [('%')]) r.key.data
     | none => true) &&
    (match cursorKey with
     | some ck => if ck == "" then true else strLt ck r.key
     | none => true)

/-- `SqliteStorageAdapter.list`: `ORDER BY key ASC LIMIT limit + 1`, page is
the first `limit` rows, `nextCursor` set iff an extra row came back and the
page is non-empty. -/
def sqlList (tbl : Table) (s : Scope) (opts : ListOptions) (now : Millis) : ListResult :=
  let limit := opts.limit.getD 50
  let cursorKey := decodeCursor opts.cursor
  let sorted := List.insertionSort (fun a b : Row => strLe a.key b.key = true)
    (tbl.filter (listRowMatches s opts.pfx cursorKey now))
  let rows := sorted.take (limit + 1)
  let page := (rows.take limit).map toStoredItem
  let nextCursor :=
    if limit < rows.length then
      match page.getLast? with
      | some it => some (encodeCursor it.key)
      | none => none
    else none
  ⟨page, nextCursor⟩

/-! The redis adapter (`RedisStorageAdapter` in `adapters/redis.ts`).  The
backing store is an association list from composed redis keys to envelopes;
`SET` replaces the entry (the redis-level `EX` expiry duplicates the
envelope's own `expiresAt` and is not modelled separately).  The
watch/multi/exec retry loop is modelled in its uncontended sequential
behaviour: the first commit succeeds. -/

/-- `RedisStorageAdapter`'s `RedisEnvelope`. -/
structure Envelope where
  valueJson : String
  version : Nat
  createdAt : Millis
  updatedAt : Millis
  expiresAt : Option Millis
deriving DecidableEq

abbrev RStore := List (String × Envelope)

def rlookup (st : RStore) (k : String) : Option Envelope :=
  (st.find? (fun e => e.1 == k)).map Prod.snd

/-- Redis `SET`: replace the record, or create it. -/
def rset (st : RStore) (k : String) (v : Envelope) : RStore :=
  if st.any (fun e => e.1 == k) then st.map (fun e => if e.1 == k then (k, v) else e)
  else st ++ [(k, v)]

/-- Redis `DEL`. -/
def rdel (st : RStore) (k : String) : RStore :=
  st.filter (fun e => e.1 != k)

/-- `RedisStorageAdapter.toScopePrefix`. -/
def toScopePrefix (s : Scope) : String :=
  "t:" ++ s.tenantId ++ ":n:" ++ s.nsp ++ ":u:" ++ s.userId ++ ":k:"

/-- `RedisStorageAdapter.toRedisKey`. -/
def toRedisKey (s : Scope) (key : String) : String :=
  toScopePrefix s ++ key

/-- The scan for the first `:k:` marker in `fromRedisKey`
(`redisKey.indexOf(':k:')` followed by `slice`). -/
def splitAtKMarker : List Char → Option (List Char)
  | ':' :: 'k' :: ':' :: rest => some rest
  | _ :: rest => splitAtKMarker rest
  | [] => none

/-- `RedisStorageAdapter.fromRedisKey`. -/
def fromRedisKey (rk : String) : Option String :=
  (splitAtKMarker rk.data).map String.mk

/-- `RedisStorageAdapter.toStoredItem`. -/
def toStoredItemR (key : String) (e : Envelope) : StoredItem :=
  ⟨key, e.valueJson, e.version, etagFromVersion e.version, e.createdAt, e.updatedAt,
    e.expiresAt⟩

/-- `RedisStorageAdapter.get`: expired envelopes are deleted on read. -/
def rGet (st : RStore) (s : Scope) (key : String) (now : Millis) :
    Option StoredItem × RStore :=
  let rk := toRedisKey s key
  match rlookup st rk with
  | none => (none, st)
  | some env =>
    if isExpired env.expiresAt now then (none, rdel st rk)
    else (some (toStoredItemR key env), st)

/-- The `activeCurrent` binding of `RedisStorageAdapter.put`. -/
def activeCurrentRedis (st : RStore) (s : Scope) (key : String) (now : Millis) :
    Option Envelope :=
  match rlookup st (toRedisKey s key) with
  | some env => if isExpired env.expiresAt now then none else some env
  | none => none

/-- `RedisStorageAdapter.put` (uncontended run of the retry loop). -/
def rPut (st : RStore) (s : Scope) (key valueJson : String) (opts : PutOptions)
    (now : Millis) : Except Err StoredItem × RStore :=
  let activeCurrent := activeCurrentRedis st s key now
  let precondFail : Bool :=
    match opts.ifMatchVersion, activeCurrent with
    | some _, none => true
    | some m, some env => env.version != m
    | none, _ => false
  if precondFail then (.error .precondition, st)
  else
    let version := match activeCurrent with
      | some env => env.version + 1
      | none => 1
    let createdAt := match activeCurrent with
      | some env => env.createdAt
      | none => now
    let env : Envelope := ⟨valueJson, version, createdAt, now, putExpiresAt opts.ttlSeconds now⟩
    (.ok (toStoredItemR key env), rset st (toRedisKey s key) env)

/-- `RedisStorageAdapter.delete` (uncontended). -/
def rDelete (st : RStore) (s : Scope) (key : String) (ifMatchVersion : Option Nat)
    (now : Millis) : Except Err Bool × RStore :=
  let rk := toRedisKey s key
  match rlookup st rk with
  | none => (.ok false, st)
  | some env =>
    match ifMatchVersion with
    | some m =>
      if isExpired env.expiresAt now || env.version != m then (.error .precondition, st)
      else (.ok (!isExpired env.expiresAt now), rdel st rk)
    | none => (.ok (!isExpired env.expiresAt now), rdel st rk)

/-- `RedisStorageAdapter.batchGet` (`MGET`; expired entries yield null and
are not deleted here). -/
def rBatchGet (st : RStore) (s : Scope) (keys : List String) (now : Millis) :
    List (String × Option StoredItem) :=
  keys.map (fun k =>
    match rlookup st (toRedisKey s k) with
    | none => (k, none)
    | some env =>
      if isExpired env.expiresAt now then (k, none) else (k, some (toStoredItemR k env)))

/-- `RedisStorageAdapter.batchPut`: sequential `put`s, first error wins. -/
def rBatchPut (st : RStore) (s : Scope) (entries : List BatchPutEntry) (now : Millis) :
    Except Err (List (String × StoredItem)) × RStore :=
  match entries with
  | [] => (.ok [], st)
  | e :: rest =>
    match rPut st s e.key e.valueJson ⟨e.ttlSeconds, e.ifMatchVersion⟩ now with
    | (.error err, st') => (.error err, st')
    | (.ok item, st') =>
      match rBatchPut st' s rest now with
      | (.ok items, st'') => (.ok ((e.key, item) :: items), st'')
      | (.error err, st'') => (.error err, st'')

/-! `String.prototype.localeCompare` with no arguments, as invoked by
`RedisStorageAdapter.list`'s sort.  Modelled from the ICU root collation
restricted to ASCII strings: a primary pass compares letters
case-insensitively (an upper-case letter shares the primary weight of its
lower-case form) and other characters by code point; ties are broken by a
case pass in which lower case sorts before upper case.  This differs from
raw code-point order exactly where the real collation does, e.g. on
`'a'`/`'B'`. -/

def natListLt : List Nat → List Nat → Bool
  | [], [] => false
  | [], _ :: _ => true
  | _ :: _, [] => false
  | x :: xs, y :: ys => if x < y then true else if y < x then false else natListLt xs ys

def primaryWeight (c : Char) : Nat :=
  if c.isUpper then c.toNat + 32 else c.toNat

def caseWeight (c : Char) : Nat :=
  if c.isUpper then 1 else 0

def localeCompareModel (a b : String) : Int :=
  if natListLt (a.data.map primaryWeight) (b.data.map primaryWeight) then -1
  else if natListLt (b.data.map primaryWeight) (a.data.map primaryWeight) then 1
  else if natListLt (a.data.map caseWeight) (b.data.map caseWeight) then -1
  else if natListLt (b.data.map caseWeight) (a.data.map caseWeight) then 1
  else 0

/-- Consecutive-`'*'` collapse of redis `stringmatchlen`. -/
def stripStars : List Char → List Char
  | [] => []
  | c :: p => if c = ('*') then stripStars p else c :: p

/-- The `'['` character-class loop of redis `stringmatchlen` (`nocase = 0`):
`\x` tests membership of `x` literally, `']'` closes the class, `a-b` is a
range with reversed bounds swapped, and an unterminated class extends to
the end of the pattern.  Returns whether the character is in the class and
the pattern remaining after it. -/
def globClassScan : List Char → Char → Bool → Bool × List Char
  | ('\\') :: pc :: rest, c, m => globClassScan rest c (m || (pc == c))
  | (']') :: rest, _, m => (m, rest)
  | [], _, m => (m, [])
  | a :: ('-') :: b :: rest, c, m =>
    let lo := if a.toNat ≤ b.toNat then a.toNat else b.toNat
    let hi := if a.toNat ≤ b.toNat then b.toNat else a.toNat
    globClassScan rest c (m || (decide (lo ≤ c.toNat) && decide (c.toNat ≤ hi)))
  | a :: rest, c, m => globClassScan rest c (m || (a == c))

/-- A redis glob character class together with its optional leading `'^'`
negation. -/
def globClassAt (p : List Char) (c : Char) : Bool × List Char :=
  match p with
  | ('^') :: rest =>
    let r := globClassScan rest c false
    (!r.1, r.2)
  | rest => globClassScan rest c false

/-- Redis `stringmatchlen` (`util.c`) with `nocase = 0`, the matcher behind
`SCAN`'s `MATCH` option: `'*'` matches any sequence, `'?'` any single
character, `[...]` a character class, `'\'` escapes the next character.
Written against the C loop: a literal, `'?'` or class step consumes one
character of each side; when the string runs out mid-loop the trailing
`'*'`s are skipped; the suffix search of `'*'` tries only non-empty
suffixes.  The fuel argument is only a termination device (every recursive
call shortens the pattern or the string), so
`pat.length + str.length + 1` always suffices. -/
def globMatchGo : Nat → List Char → List Char → Bool
  | 0, _, _ => false
  | _ + 1, p, [] => (stripStars p).isEmpty
  | _ + 1, [], _ :: _ => false
  | f + 1, pc :: p, c :: s =>
    if pc = ('*') then
      let q := stripStars p
      if q.isEmpty then true
      else globMatchGo f q (c :: s) || globMatchGo f (pc :: q) s
    else if pc = ('?') then globMatchGo f p s
    else if pc = ('[') then
      let r := globClassAt p c
      if r.1 then globMatchGo f r.2 s else false
    else if pc = ('\\') then
      match p with
      | pc2 :: p2 => if pc2 = c then globMatchGo f p2 s else false
      | [] => if pc = c then globMatchGo f p s else false
    else if pc = c then globMatchGo f p s else false

/-- Top-level entry of `stringmatchlen`: with an empty string the main loop
is never entered and only the empty pattern matches. -/
def globMatch (pat str : List Char) : Bool :=
  match str with
  | [] => pat.isEmpty
  | _ :: _ => globMatchGo (pat.length + str.length + 1) pat str

/-- The body of `RedisStorageAdapter.list`'s scan loop, for one record:
glob filter (`MATCH scopePrefix + prefix + '*'`), key extraction (a falsy
extracted key, i.e. a missing marker or the empty key, is skipped), cursor
skip (`key <= cursorKey`), expiry filter. -/
def rListScanEntry (s : Scope) (pfx : String) (cursorKey : Option String) (now : Millis)
    (e : String × Envelope) : Option (String × StoredItem) :=
  if globMatch (toScopePrefix s ++ pfx ++ "*").data e.1.data then
    match fromRedisKey e.1 with
    | none => none
    | some key =>
      if key == "" then none
      else
        let skip : Bool :=
          match cursorKey with
          | some ck => if ck == "" then false else !strLt ck key
          | none => false
        if skip then none
        else if isExpired e.2.expiresAt now then none
        else some (key, toStoredItemR key e.2)
  else none

/-- `RedisStorageAdapter.list`: scan, filter, sort by `localeCompare`, take
`limit`, set `nextCursor` when more matches were found and the page is
non-empty. -/
def rList (st : RStore) (s : Scope) (opts : ListOptions) (now : Millis) : ListResult :=
  let limit := opts.limit.getD 50
  let cursorKey := decodeCursor opts.cursor
  let pfx := opts.pfx.getD ""
  let found := st.filterMap (rListScanEntry s pfx cursorKey now)
  let sorted := List.insertionSort
    (fun a b : String × StoredItem => localeCompareModel a.1 b.1 ≤ 0) found
  let page := sorted.take limit
  let nextCursor :=
    if limit < found.length then
      match page.getLast? with
      | some last => some (encodeCursor last.1)
      | none => none
    else none
  ⟨page.map Prod.snd, nextCursor⟩

/-! The remaining `utils.ts` functions and the `StorageService`
(instantiated at the sqlite adapter model).  JavaScript numbers that flow
into `clampLimit` are modelled by `JSNumber`: the three non-finite values
plus integers (`Math.trunc` is the identity on integers, and no claim
involves a fractional limit). -/

inductive JSNumber
  | nan
  | posInf
  | negInf
  | num (v : Int)
deriving DecidableEq

def jsTruthy : JSNumber → Bool
  | .nan => false
  | .num 0 => false
  | _ => true

def jsIsFinite : JSNumber → Bool
  | .num _ => true
  | _ => false

def jsTrunc : JSNumber → Int
  | .num v => v
  | _ => 0

/-- `utils.ts` `clampLimit`: falsy or non-finite limit yields the fallback,
otherwise `min(max(1, trunc(limit)), max)`. -/
def clampLimit (limit : Option JSNumber) (maxLimit fallback : Int) : Int :=
  match limit with
  | none => fallback
  | some l =>
    if !jsTruthy l || !jsIsFinite l then fallback
    else min (max 1 (jsTrunc l)) maxLimit

def jsWhitespace (c : Char) : Bool := c.isWhitespace

def rdropWhileB (p : Char → Bool) (l : List Char) : List Char :=
  (l.reverse.dropWhile p).reverse

/-- `String.prototype.trim`. -/
def jsTrim (s : String) : String :=
  String.mk (rdropWhileB jsWhitespace (s.data.dropWhile jsWhitespace))

def digitsToNat (ds : List Char) : Nat :=
  ds.foldl (fun acc c => acc * 10 + (c.toNat - 48)) 0

/-- `Number.parseInt(s, 10)`: skip leading whitespace, optional sign, value
of the leading run of decimal digits; `NaN` (here `none`) when that run is
empty. -/
def parseIntBase10 (s : String) : Option Int :=
  let l := s.data.dropWhile jsWhitespace
  let signNeg : Bool := l.head? == some ('-')
  let l2 := if l.head? == some ('-') || l.head? == some ('+') then l.tail else l
  let ds := l2.takeWhile (fun c => c.isDigit)
  if ds.isEmpty then none
  else if signNeg then some (-(digitsToNat ds : Int)) else some (digitsToNat ds)

/-- `utils.ts` `normalizeIfMatch`: trim, strip one layer of surrounding
quotes, `parseInt`, and require a finite positive result. -/
def normalizeIfMatch (ifMatch : Option String) : Option Int :=
  match ifMatch with
  | none => none
  | some s =>
    if s == "" then none
    else
      let trimmed := jsTrim s
      let withoutQuotes :=
        if trimmed.data.head? == some ('"') && trimmed.data.getLast? == some ('"') then
          String.mk ((trimmed.data.drop 1).dropLast)
        else trimmed
      match parseIntBase10 withoutQuotes with
      | none => none
      | some p => if p ≤ 0 then none else some p

/-- `StorageService.validateIfMatch`: absent or empty is "no precondition",
otherwise a failed `normalizeIfMatch` raises a precondition failure. -/
def validateIfMatch (ifMatch : Option String) : Except Err (Option Int) :=
  match ifMatch with
  | none => .ok none
  | some s =>
    if s == "" then .ok none
    else
      match normalizeIfMatch (some s) with
      | none => .error .precondition
      | some v => .ok (some v)

/-- The four service limits with their defaults. -/
structure SvcConfig where
  maxKeyLength : Nat := 255
  maxValueBytes : Nat := 1048576
  maxBatchSize : Nat := 100
  maxListLimit : Int := 100
deriving DecidableEq

/-- `StorageService.validateScope`: all three components non-empty. -/
def validateScope (s : Scope) : Except Err Unit :=
  if s.tenantId == "" || s.nsp == "" || s.userId == "" then .error .validation else .ok ()

/-- `StorageService.validateKey`: non-empty and within `maxKeyLength`. -/
def validateKey (cfg : SvcConfig) (key : String) : Except Err Unit :=
  if key == "" then .error .validation
  else if cfg.maxKeyLength < key.length then .error .validation
  else .ok ()

/-- `StorageService.validateValue`: UTF-8 byte length of the canonical JSON
within `maxValueBytes`. -/
def validateValue (cfg : SvcConfig) (valueJson : String) : Except Err Unit :=
  if cfg.maxValueBytes < (utf8Encode valueJson.data).length then .error .validation
  else .ok ()

/-- `StorageService.validateTtlSeconds` (restricted to integer inputs, where
`Number.isInteger` holds): positive or rejected. -/
def validateTtlSeconds (ttl : Option Int) : Except Err (Option Nat) :=
  match ttl with
  | none => .ok none
  | some t => if t ≤ 0 then .error .validation else .ok (some t.toNat)

/-- `StorageService.getItem` over the sqlite adapter. -/
def serviceGetItem (cfg : SvcConfig) (tbl : Table) (s : Scope) (key : String)
    (now : Millis) : Except Err (Option StoredItem) × Table :=
  match validateScope s with
  | .error e => (.error e, tbl)
  | .ok _ =>
    match validateKey cfg key with
    | .error e => (.error e, tbl)
    | .ok _ => (.ok (sqlGet tbl s key now), tbl)

/-- `StorageService.setItem` over the sqlite adapter. -/
def serviceSetItem (cfg : SvcConfig) (tbl : Table) (s : Scope) (key valueJson : String)
    (ttlSeconds : Option Int) (ifMatch : Option String) (now : Millis) :
    Except Err StoredItem × Table :=
  match validateScope s with
  | .error e => (.error e, tbl)
  | .ok _ =>
    match validateKey cfg key with
    | .error e => (.error e, tbl)
    | .ok _ =>
      match validateValue cfg valueJson with
      | .error e => (.error e, tbl)
      | .ok _ =>
        match validateTtlSeconds ttlSeconds with
        | .error e => (.error e, tbl)
        | .ok ttl =>
          match validateIfMatch ifMatch with
          | .error e => (.error e, tbl)
          | .ok ifm => sqlPut tbl s key valueJson ⟨ttl, ifm.map Int.toNat⟩ now

/-- `StorageService.removeItem` over the sqlite adapter. -/
def serviceRemoveItem (cfg : SvcConfig) (tbl : Table) (s : Scope) (key : String)
    (ifMatch : Option String) (now : Millis) : Except Err Bool × Table :=
  match validateScope s with
  | .error e => (.error e, tbl)
  | .ok _ =>
    match validateKey cfg key with
    | .error e => (.error e, tbl)
    | .ok _ =>
      match validateIfMatch ifMatch with
      | .error e => (.error e, tbl)
      | .ok ifm => sqlDelete tbl s key (ifm.map Int.toNat) now

def validateKeysAll (cfg : SvcConfig) : List String → Except Err Unit
  | [] => .ok ()
  | k :: rest =>
    match validateKey cfg k with
    | .error e => .error e
    | .ok _ => validateKeysAll cfg rest

/-- `StorageService.batchGet` over the sqlite adapter. -/
def serviceBatchGet (cfg : SvcConfig) (tbl : Table) (s : Scope) (keys : List String)
    (now : Millis) : Except Err (List (String × Option StoredItem)) × Table :=
  match validateScope s with
  | .error e => (.error e, tbl)
  | .ok _ =>
    if keys.isEmpty then (.error .validation, tbl)
    else if cfg.maxBatchSize < keys.length then (.error .validation, tbl)
    else
      match validateKeysAll cfg keys with
      | .error e => (.error e, tbl)
      | .ok _ => (.ok (sqlBatchGet tbl s keys now), tbl)

def natNumeralChars (n : Nat) : List Char :=
  if n < 10 then [Char.ofNat (48 + n)]
  else natNumeralChars (n / 10) ++ [Char.ofNat (48 + n % 10)]

/-- `String(v)` for an integer JavaScript number. -/
def jsIntToString (v : Int) : String :=
  if v < 0 then String.mk (('-') :: natNumeralChars v.natAbs)
  else String.mk (natNumeralChars v.natAbs)

/-- The entry of `StorageService.batchPut` before validation
(`ifMatchVersion` carried as a number, per `BatchPutEntry`). -/
structure ServiceBatchPutEntry where
  key : String
  valueJson : String
  ttlSeconds : Option Int := none
  ifMatchVersion : Option Int := none
deriving DecidableEq

/-- The per-entry validation loop of `StorageService.batchPut`: key, value,
ttl, then `validateIfMatch(String(entry.ifMatchVersion))`, rewriting the
entry's `ifMatchVersion` with the validated value. -/
def validateEntry (cfg : SvcConfig) (e : ServiceBatchPutEntry) : Except Err BatchPutEntry :=
  match validateKey cfg e.key with
  | .error err => .error err
  | .ok _ =>
    match validateValue cfg e.valueJson with
    | .error err => .error err
    | .ok _ =>
      match validateTtlSeconds e.ttlSeconds with
      | .error err => .error err
      | .ok ttl =>
        match validateIfMatch ((e.ifMatchVersion).map jsIntToString) with
        | .error err => .error err
        | .ok ifm => .ok ⟨e.key, e.valueJson, ttl, ifm.map Int.toNat⟩

def validateEntriesAll (cfg : SvcConfig) :
    List ServiceBatchPutEntry → Except Err (List BatchPutEntry)
  | [] => .ok []
  | e :: rest =>
    match validateEntry cfg e with
    | .error err => .error err
    | .ok e' =>
      match validateEntriesAll cfg rest with
      | .error err => .error err
      | .ok rest' => .ok (e' :: rest')

/-- `StorageService.batchPut` over the sqlite adapter. -/
def serviceBatchPut (cfg : SvcConfig) (tbl : Table) (s : Scope)
    (entries : List ServiceBatchPutEntry) (now : Millis) :
    Except Err (List (String × StoredItem)) × Table :=
  match validateScope s with
  | .error e => (.error e, tbl)
  | .ok _ =>
    if entries.isEmpty then (.error .validation, tbl)
    else if cfg.maxBatchSize < entries.length then (.error .validation, tbl)
    else
      match validateEntriesAll cfg entries with
      | .error e => (.error e, tbl)
      | .ok entries' => sqlBatchPut tbl s entries' now

/-- `StorageService.list` over the sqlite adapter: prefix length check, then
delegation with the clamped limit. -/
def serviceList (cfg : SvcConfig) (tbl : Table) (s : Scope) (pfx : Option String)
    (cursor : Option String) (limit : Option JSNumber) (now : Millis) :
    Except Err ListResult :=
  match validateScope s with
  | .error e => .error e
  | .ok _ =>
    match pfx with
    | some p =>
      if cfg.maxKeyLength < p.length then .error .validation
      else .ok (sqlList tbl s ⟨pfx, cursor, some (clampLimit limit cfg.maxListLimit 50).toNat⟩ now)
    | none =>
      .ok (sqlList tbl s ⟨pfx, cursor, some (clampLimit limit cfg.maxListLimit 50).toNat⟩ now)

/-! Auxiliary definitions used only to state claims: spec-side comparison
definitions and dispatchers bundling the adapter operations. -/

/-- The decimal numeral of `n` (spec-side notion of "the bare decimal N"). -/
def specNumeral (n : Nat) : String :=
  String.mk (natNumeralChars n)

/-- `s` wrapped in double quotes (spec-side notion of "the quoted form"). -/
def quoteStr (s : String) : String :=
  "\"" ++ s ++ "\""

/-- Modelled from the spec: the `If-Match` values the specification says are
accepted — after trimming surrounding whitespace, either the bare decimal
`N` or the quoted form `"N"` of a positive integer `N`; everything else is
`none`.  Stated from the spec's words for comparison with the code's
`normalizeIfMatch`. -/
def specIfMatchValue (s : String) : Option Nat :=
  let t := jsTrim s
  let u :=
    if t.data.head? == some ('"') && t.data.getLast? == some ('"') && t.length ≥ 2 then
      (t.data.drop 1).dropLast
    else t.data
  if u.isEmpty then none
  else if u.all (fun c => c.isDigit) && decide (0 < digitsToNat u) then some (digitsToNat u)
  else none

/-- The active version `put`'s precondition is checked against (sqlite). -/
def activeVersionSql (tbl : Table) (s : Scope) (key : String) (now : Millis) : Option Nat :=
  (activeCurrentSql tbl s key now).map Row.version

/-- The active version `put`'s precondition is checked against (redis). -/
def activeVersionRedis (st : RStore) (s : Scope) (key : String) (now : Millis) : Option Nat :=
  (activeCurrentRedis st s key now).map Envelope.version

/-- A write operation of the adapter contract. -/
inductive WriteOp
  | put (key valueJson : String) (opts : PutOptions)
  | del (key : String) (ifMatchVersion : Option Nat)
  | batchPut (entries : List BatchPutEntry)
deriving DecidableEq

/-- A read operation of the adapter contract. -/
inductive ReadOp
  | get (key : String)
  | batchGet (keys : List String)
  | list (opts : ListOptions)
deriving DecidableEq

/-- The result of a read operation. -/
inductive ReadResult
  | item (r : Option StoredItem)
  | items (rs : List (String × Option StoredItem))
  | page (r : ListResult)
deriving DecidableEq

/-- The state after a sqlite write (a raised error leaves the table as the
operation left it, which for a precondition failure is unchanged). -/
def applyWriteSql (tbl : Table) (s : Scope) (w : WriteOp) (now : Millis) : Table :=
  match w with
  | .put k v o => (sqlPut tbl s k v o now).2
  | .del k ifm => (sqlDelete tbl s k ifm now).2
  | .batchPut es => (sqlBatchPut tbl s es now).2

/-- The state after a redis write. -/
def applyWriteRedis (st : RStore) (s : Scope) (w : WriteOp) (now : Millis) : RStore :=
  match w with
  | .put k v o => (rPut st s k v o now).2
  | .del k ifm => (rDelete st s k ifm now).2
  | .batchPut es => (rBatchPut st s es now).2

/-- The observable result of a sqlite read. -/
def runReadSql (tbl : Table) (s : Scope) (r : ReadOp) (now : Millis) : ReadResult :=
  match r with
  | .get k => .item (sqlGet tbl s k now)
  | .batchGet ks => .items (sqlBatchGet tbl s ks now)
  | .list opts => .page (sqlList tbl s opts now)

/-- The observable result of a redis read. -/
def runReadRedis (st : RStore) (s : Scope) (r : ReadOp) (now : Millis) : ReadResult :=
  match r with
  | .get k => .item (rGet st s k now).1
  | .batchGet ks => .items (rBatchGet st s ks now)
  | .list opts => .page (rList st s opts now)

/-- No scope component contains the `':'` separator of the redis key
composition. -/
def colonFreeScope (s : Scope) : Prop :=
  (':') ∉ s.tenantId.data ∧ (':') ∉ s.nsp.data ∧ (':') ∉ s.userId.data

instance (s : Scope) : Decidable (colonFreeScope s) := by
  unfold colonFreeScope; infer_instance

/-- No scope component contains a redis glob metacharacter (`'*'`, `'?'`,
`'['`, `'\'`), so a `MATCH` pattern built from the scope is literal in its
scope-prefix part. -/
def globFreeScope (s : Scope) : Prop :=
  (∀ c ∈ s.tenantId.data, c ≠ ('*') ∧ c ≠ ('?') ∧ c ≠ ('[') ∧ c ≠ ('\\')) ∧
  (∀ c ∈ s.nsp.data, c ≠ ('*') ∧ c ≠ ('?') ∧ c ≠ ('[') ∧ c ≠ ('\\')) ∧
  (∀ c ∈ s.userId.data, c ≠ ('*') ∧ c ≠ ('?') ∧ c ≠ ('[') ∧ c ≠ ('\\'))

instance (s : Scope) : Decidable (globFreeScope s) := by
  unfold globFreeScope; infer_instance

/-- Scope components free of both the `':'` separator and the glob
metacharacters: under these the redis key composition is injective and the
scan pattern's scope prefix is literal. -/
def redisSafeScope (s : Scope) : Prop := colonFreeScope s ∧ globFreeScope s

instance (s : Scope) : Decidable (redisSafeScope s) := by
  unfold redisSafeScope; infer_instance

/-! Theorems settling the claims, together with their supporting lemmas. -/

/-- C5: on a `put` that finds the prior row expired, the adapter returns an
item with `version = 1` and `createdAt = now`, but the `ON CONFLICT DO
UPDATE` clause omits `created_at`, so the stored row keeps the stale value:
a subsequent `get` reports `createdAt = 0`, not the put's `updatedAt =
2000`.  Concrete run: put with ttl 1 s at t=0, overwrite at t=2000. -/
theorem c5_expired_overwrite_createdat_bug :
    (sqlPut [] ⟨"t", "n", "u"⟩ "k" "v1" ⟨some 1, none⟩ 0).2 =
      [⟨"t", "n", "u", "k", "v1", 1, some 1000, 0, 0⟩]
  ∧ ((sqlPut [⟨"t", "n", "u", "k", "v1", 1, some 1000, 0, 0⟩] ⟨"t", "n", "u"⟩
        "k" "v2" {} 2000).1 = .ok ⟨"k", "v2", 1, "\"1\"", 2000, 2000, none⟩)
  ∧ (sqlGet (sqlPut [⟨"t", "n", "u", "k", "v1", 1, some 1000, 0, 0⟩] ⟨"t", "n", "u"⟩
        "k" "v2" {} 2000).2 ⟨"t", "n", "u"⟩ "k" 2000 =
      some ⟨"k", "v2", 1, "\"1\"", 0, 2000, none⟩)
  ∧ (0 : Millis) ≠ 2000 := by decide

/-- C3: the redis adapter sorts its page with `localeCompare`, not byte
order: with active keys `B` and `a` the returned page is `[a, B]`, although
in lexicographic byte order `B` precedes `a` (so the page is not strictly
ascending in byte order). -/
theorem c3_redis_list_locale_order_bug :
    ((rList (rPut (rPut [] ⟨"t", "n", "u"⟩ "B" "1" {} 0).2 ⟨"t", "n", "u"⟩ "a" "2" {} 0).2
        ⟨"t", "n", "u"⟩ {} 0).items.map StoredItem.key = ["a", "B"])
  ∧ strLt "a" "B" = false ∧ strLt "B" "a" = true := by decide

/-- C4 counterexample: deleting a key whose stored row is expired while
supplying `ifMatchVersion` raises a precondition failure (state unchanged)
instead of returning `false` — even when the supplied version equals the
stored one. -/
theorem c4_counterexample :
    sqlDelete [⟨"t", "n", "u", "k", "v", 1, some 5, 0, 0⟩] ⟨"t", "n", "u"⟩ "k" (some 1) 10 =
      (.error .precondition, [⟨"t", "n", "u", "k", "v", 1, some 5, 0, 0⟩]) := by decide

/-- C7 counterexample: `limit = 0` is falsy, so `clampLimit` returns the
fallback 50 instead of clamping to 1; through the service a list with
`limit = 0` over two stored items returns both items, not one. -/
theorem c7_counterexample :
    clampLimit (some (JSNumber.num 0)) 100 50 = 50
  ∧ (serviceList {} [⟨"t", "n", "u", "a", "1", 1, none, 0, 0⟩,
        ⟨"t", "n", "u", "b", "2", 1, none, 0, 0⟩] ⟨"t", "n", "u"⟩ none none
        (some (JSNumber.num 0)) 0 =
      .ok ⟨[⟨"a", "1", 1, "\"1\"", 0, 0, none⟩, ⟨"b", "2", 1, "\"1\"", 0, 0, none⟩], none⟩)
    := by decide

/-- C8 counterexample: `"3x"` is neither a bare decimal nor a quoted
positive integer, so per the claim it should raise a precondition failure;
`parseInt` accepts its leading digits and the service accepts it as
version 3. -/
theorem c8_counterexample :
    validateIfMatch (some "3x") = .ok (some 3) ∧ specIfMatchValue "3x" = none := by decide

/-- C9 counterexample: the composed redis key is not injective in the
scope.  The distinct scopes `("x:n:y", "z", "u")` and `("x", "y:n:z", "u")`
compose, with key `k`, to the same redis key, so a `put` under the first
scope becomes visible to a `get` under the second. -/
theorem c9_counterexample :
    (⟨"x:n:y", "z", "u"⟩ : Scope) ≠ ⟨"x", "y:n:z", "u"⟩
  ∧ (rGet [] ⟨"x", "y:n:z", "u"⟩ "k" 0).1 = none
  ∧ ((rGet (rPut [] ⟨"x:n:y", "z", "u"⟩ "k" "v" {} 0).2 ⟨"x", "y:n:z", "u"⟩ "k" 0).1 =
      some ⟨"k", "v", 1, "\"1\"", 0, 0, none⟩) := by decide

/-! Helper lemmas shared between claims. -/

theorem getRow_false (tbl : Table) (s : Scope) (key : String) (now : Millis) :
    getRow tbl s key false now = tbl.find? (pkMatches s key) := by
  unfold getRow pkMatches
  congr 1
  funext r
  simp

theorem pk_update_invariant (s : Scope) (key : String) (v : String) (ver : Nat)
    (e : Option Millis) (n : Millis) (r : Row) :
    pkMatches s key
      { r with valueJson := v, version := ver, expiresAt := e, updatedAt := n } =
      pkMatches s key r := rfl

theorem find?_map_cond (p : Row → Bool) (f : Row → Row)
    (hf : ∀ r, p (f r) = p r) (l : List Row) :
    (l.map f).find? p = (l.find? p).map f := by
  induction l with
  | nil => rfl
  | cons r t ih =>
    simp only [List.map_cons, List.find?_cons, hf r]
    cases hp : p r <;> simp [ih]

theorem newRow_pk (s : Scope) (key valueJson : String) (version : Nat)
    (expiresAt : Option Millis) (createdAt updatedAt : Millis) :
    pkMatches s key
      ⟨s.tenantId, s.nsp, s.userId, key, valueJson, version, expiresAt, createdAt,
        updatedAt⟩ = true := by
  simp [pkMatches, scopeMatches]

/-- C1: a `put` carrying `ifMatchVersion = m` fails with a precondition
error, leaving the state untouched, whenever the active version for the
scope+key differs from `m` (including when no active item exists); a `put`
without `ifMatchVersion` always succeeds.  Proved for the sqlite and redis
adapter models. -/
theorem c1_put_ifmatch_precondition :
    ∀ (tbl : Table) (st : RStore) (s : Scope) (key valueJson : String)
      (ttl : Option Nat) (m : Nat) (now : Millis),
      (activeVersionSql tbl s key now ≠ some m →
        sqlPut tbl s key valueJson ⟨ttl, some m⟩ now = (.error .precondition, tbl))
    ∧ ((sqlPut tbl s key valueJson ⟨ttl, none⟩ now).1.isOk = true)
    ∧ (activeVersionRedis st s key now ≠ some m →
        rPut st s key valueJson ⟨ttl, some m⟩ now = (.error .precondition, st))
    ∧ ((rPut st s key valueJson ⟨ttl, none⟩ now).1.isOk = true) := by
  intro tbl st s key valueJson ttl m now
  refine ⟨?_, ?_, ?_, ?_⟩
  · intro h
    cases hac : activeCurrentSql tbl s key now with
    | none => simp [sqlPut, hac]
    | some r =>
      have hv : r.version ≠ m := fun he => h (by simp [activeVersionSql, hac, he])
      simp [sqlPut, hac, hv]
  · cases hac : activeCurrentSql tbl s key now <;> simp [sqlPut, hac, Except.isOk, Except.toBool]
  · intro h
    cases hac : activeCurrentRedis st s key now with
    | none => simp [rPut, hac]
    | some env =>
      have hv : env.version ≠ m := fun he => h (by simp [activeVersionRedis, hac, he])
      simp [rPut, hac, hv]
  · cases hac : activeCurrentRedis st s key now <;> simp [rPut, hac, Except.isOk, Except.toBool]

/-- C1 witness: concrete instance — table with an active row at version 2,
`ifMatchVersion = 5` mismatch fails and unconditional put succeeds. -/
theorem c1_witness :
    (activeVersionSql [⟨"t", "n", "u", "k", "v", 2, none, 0, 0⟩] ⟨"t", "n", "u"⟩ "k" 7 ≠
      some 5)
  ∧ ((activeVersionSql [⟨"t", "n", "u", "k", "v", 2, none, 0, 0⟩] ⟨"t", "n", "u"⟩ "k" 7 ≠
        some 5 →
      sqlPut [⟨"t", "n", "u", "k", "v", 2, none, 0, 0⟩] ⟨"t", "n", "u"⟩ "k" "w" ⟨none, some 5⟩ 7 =
        (.error .precondition, [⟨"t", "n", "u", "k", "v", 2, none, 0, 0⟩]))
    ∧ ((sqlPut [⟨"t", "n", "u", "k", "v", 2, none, 0, 0⟩] ⟨"t", "n", "u"⟩ "k" "w" ⟨none, none⟩ 7).1.isOk = true)
    ∧ (activeVersionRedis [] ⟨"t", "n", "u"⟩ "k" 7 ≠ some 5 →
      rPut [] ⟨"t", "n", "u"⟩ "k" "w" ⟨none, some 5⟩ 7 = (.error .precondition, []))
    ∧ ((rPut [] ⟨"t", "n", "u"⟩ "k" "w" ⟨none, none⟩ 7).1.isOk = true)) :=
  ⟨by decide,
    c1_put_ifmatch_precondition [⟨"t", "n", "u", "k", "v", 2, none, 0, 0⟩] [] ⟨"t", "n", "u"⟩
      "k" "w" none 5 7⟩

theorem find?_map_set (st : RStore) (k : String) (v : Envelope)
    (h : st.any (fun e => e.1 == k) = true) :
    (st.map (fun e => if e.1 == k then (k, v) else e)).find? (fun e => e.1 == k) =
      some (k, v) := by
  induction st with
  | nil => simp at h
  | cons e t ih =>
    rw [List.map_cons]
    by_cases he : e.1 == k
    · have hfe : (if e.1 == k then (k, v) else e) = (k, v) := by rw [if_pos he]
      rw [hfe]
      exact List.find?_cons_of_pos _ (by simp)
    · have hfe : (if e.1 == k then (k, v) else e) = e := by rw [if_neg he]
      rw [hfe, List.find?_cons_of_neg _ (by simpa using he)]
      apply ih
      simp only [List.any_cons] at h
      rcases (Bool.or_eq_true ..).mp h with h1 | h1
      · exact absurd h1 he
      · exact h1

theorem rlookup_rset_self (st : RStore) (k : String) (v : Envelope) :
    rlookup (rset st k v) k = some v := by
  unfold rset
  by_cases h : st.any (fun e => e.1 == k)
  · rw [if_pos h]
    unfold rlookup
    rw [find?_map_set st k v h]
    rfl
  · rw [if_neg h]
    unfold rlookup
    have hn : st.find? (fun e => e.1 == k) = none := by
      rw [List.find?_eq_none]
      intro e he hk
      exact h (List.any_eq_true.mpr ⟨e, he, hk⟩)
    rw [List.find?_append, hn, Option.none_or, List.find?_cons_of_pos _ (by simp)]
    rfl

/-- C2: on every successful `put` the returned version is the prior active
version plus one (or 1 when no active item exists), and the row or envelope
actually stored carries that same version.  Proved for the sqlite and redis
adapter models; by induction over a run, successful puts to one scope+key
therefore observe 1, 2, 3, …. -/
theorem c2_put_version :
    ∀ (tbl : Table) (st : RStore) (s : Scope) (key valueJson : String) (opts : PutOptions)
      (now : Millis),
    (∀ item tbl', sqlPut tbl s key valueJson opts now = (.ok item, tbl') →
      item.version = (match activeCurrentSql tbl s key now with
        | some r => r.version + 1
        | none => 1)
      ∧ ∃ r, getRow tbl' s key false now = some r ∧ r.version = item.version)
    ∧ (∀ item st', rPut st s key valueJson opts now = (.ok item, st') →
      item.version = (match activeCurrentRedis st s key now with
        | some env => env.version + 1
        | none => 1)
      ∧ ∃ env, rlookup st' (toRedisKey s key) = some env ∧ env.version = item.version) := by
  intro tbl st s key valueJson opts now
  constructor
  · intro item tbl' h
    simp only [sqlPut] at h
    split at h
    · simp at h
    · rw [Prod.mk.injEq] at h
      obtain ⟨h1, h2⟩ := h
      replace h1 := Except.ok.inj h1
      constructor
      · rw [← h1]
      · rw [getRow_false, ← h2]
        by_cases hany : tbl.any (pkMatches s key)
        · rw [if_pos hany]
          rw [find?_map_cond (pkMatches s key) _
            (fun r => by by_cases hr : pkMatches s key r <;> simp [hr, pk_update_invariant])]
          have hsome : (tbl.find? (pkMatches s key)).isSome := by
            rw [List.find?_isSome]
            simpa [List.any_eq_true] using hany
          obtain ⟨r0, hr0⟩ := Option.isSome_iff_exists.mp hsome
          rw [hr0]
          have hpk : pkMatches s key r0 := List.find?_some hr0
          refine ⟨_, rfl, ?_⟩
          rw [← h1]
          simp [hpk]
        · rw [if_neg hany]
          have hn : tbl.find? (pkMatches s key) = none := by
            rw [List.find?_eq_none]
            intro r hr hpk
            exact hany (List.any_eq_true.mpr ⟨r, hr, hpk⟩)
          rw [List.find?_append, hn, Option.none_or,
            List.find?_cons_of_pos _ (newRow_pk ..)]
          exact ⟨_, rfl, by rw [← h1]⟩
  · intro item st' h
    simp only [rPut] at h
    split at h
    · simp at h
    · rw [Prod.mk.injEq] at h
      obtain ⟨h1, h2⟩ := h
      replace h1 := Except.ok.inj h1
      refine ⟨by rw [← h1]; cases activeCurrentRedis st s key now <;> rfl, ?_⟩
      rw [← h2, rlookup_rset_self]
      exact ⟨_, rfl, by rw [← h1]; cases activeCurrentRedis st s key now <;> rfl⟩

/-- C2 witness: concrete instance — a put over an active row at version 2
returns and stores version 3. -/
theorem c2_witness :
    (sqlPut [⟨"t", "n", "u", "k", "v", 2, none, 0, 0⟩] ⟨"t", "n", "u"⟩ "k" "w" ⟨none, none⟩ 7 =
      (.ok ⟨"k", "w", 3, "\"3\"", 0, 7, none⟩,
        [⟨"t", "n", "u", "k", "w", 3, none, 0, 7⟩]))
  ∧ ((⟨"k", "w", 3, "\"3\"", 0, 7, none⟩ : StoredItem).version =
      (match activeCurrentSql [⟨"t", "n", "u", "k", "v", 2, none, 0, 0⟩] ⟨"t", "n", "u"⟩ "k" 7 with
        | some r => r.version + 1
        | none => 1)
    ∧ ∃ r, getRow [⟨"t", "n", "u", "k", "w", 3, none, 0, 7⟩] ⟨"t", "n", "u"⟩ "k" false 7 =
        some r ∧ r.version = (⟨"k", "w", 3, "\"3\"", 0, 7, none⟩ : StoredItem).version) :=
  ⟨by decide,
    (c2_put_version [⟨"t", "n", "u", "k", "v", 2, none, 0, 0⟩] [] ⟨"t", "n", "u"⟩ "k" "w"
      ⟨none, none⟩ 7).1 ⟨"k", "w", 3, "\"3\"", 0, 7, none⟩
      [⟨"t", "n", "u", "k", "w", 3, none, 0, 7⟩] (by decide)⟩

/-- C4 (amended): a `delete` on a scope+key with no stored row returns
`false` and never raises, regardless of `ifMatchVersion`.  A `delete` on a
scope+key whose stored row is expired returns `false` when `ifMatchVersion`
is absent (and may remove the row physically), but when `ifMatchVersion` is
supplied it raises a precondition failure and leaves the state unchanged.
Proved for the sqlite and redis adapter models. -/
theorem c4_delete_missing_or_expired :
    ∀ (tbl : Table) (st : RStore) (s : Scope) (key : String) (now : Millis) (m : Nat),
      (getRow tbl s key false now = none →
        ∀ ifm, sqlDelete tbl s key ifm now = (.ok false, tbl))
    ∧ (∀ r, getRow tbl s key false now = some r → isExpired r.expiresAt now = true →
        (sqlDelete tbl s key none now).1 = .ok false
        ∧ sqlDelete tbl s key (some m) now = (.error .precondition, tbl))
    ∧ (rlookup st (toRedisKey s key) = none →
        ∀ ifm, rDelete st s key ifm now = (.ok false, st))
    ∧ (∀ env, rlookup st (toRedisKey s key) = some env → isExpired env.expiresAt now = true →
        (rDelete st s key none now).1 = .ok false
        ∧ rDelete st s key (some m) now = (.error .precondition, st)) := by
  intro tbl st s key now m
  refine ⟨?_, ?_, ?_, ?_⟩
  · intro h ifm
    cases ifm <;> simp [sqlDelete, h]
  · intro r hr hexp
    exact ⟨by simp [sqlDelete, hr, hexp], by simp [sqlDelete, hr, hexp]⟩
  · intro h ifm
    cases ifm <;> simp [rDelete, h]
  · intro env he hexp
    exact ⟨by simp [rDelete, he, hexp], by simp [rDelete, he, hexp]⟩

/-- C4 witness: concrete instance — expired row, `delete` without
`ifMatchVersion` returns `false`, with `ifMatchVersion = 1` (the stored
version) raises; missing row returns `false` with `ifMatchVersion = 9`. -/
theorem c4_witness :
    ((sqlDelete [⟨"t", "n", "u", "k", "v", 1, some 5, 0, 0⟩] ⟨"t", "n", "u"⟩ "k" none 10).1 =
      .ok false
    ∧ sqlDelete [⟨"t", "n", "u", "k", "v", 1, some 5, 0, 0⟩] ⟨"t", "n", "u"⟩ "k" (some 1) 10 =
        (.error .precondition, [⟨"t", "n", "u", "k", "v", 1, some 5, 0, 0⟩]))
  ∧ rDelete [] ⟨"t", "n", "u"⟩ "k" (some 9) 10 = (.ok false, []) :=
  ⟨(c4_delete_missing_or_expired [⟨"t", "n", "u", "k", "v", 1, some 5, 0, 0⟩] []
      ⟨"t", "n", "u"⟩ "k" 10 1).2.1 ⟨"t", "n", "u", "k", "v", 1, some 5, 0, 0⟩
      (by decide) (by decide),
   (c4_delete_missing_or_expired [⟨"t", "n", "u", "k", "v", 1, some 5, 0, 0⟩] []
      ⟨"t", "n", "u"⟩ "k" 10 1).2.2.1 (by decide) (some 9)⟩

/-! Lemmas about digits, numerals, trimming and `parseInt`, feeding the
`If-Match` claims. -/

theorem isDigit_ne (c d : Char) (h : c.isDigit = true) (hd : d.isDigit = false) : c ≠ d := by
  intro he
  subst he
  rw [h] at hd
  cases hd

theorem digit_not_ws (c : Char) (h : c.isDigit = true) : jsWhitespace c = false := by
  unfold jsWhitespace
  by_contra hw
  rw [Bool.not_eq_false] at hw
  simp only [Char.isWhitespace, Bool.or_eq_true, decide_eq_true_eq, beq_iff_eq] at hw
  rcases hw with ((h1 | h1) | h1) | h1 <;> (subst h1; exact absurd h (by decide))

theorem digitsToNat_append (l : List Char) (c : Char) :
    digitsToNat (l ++ [c]) = digitsToNat l * 10 + (c.toNat - 48) := by
  unfold digitsToNat
  rw [List.foldl_append]
  rfl

theorem toNat_digitChar (m : Nat) (h : m < 10) : (Char.ofNat (48 + m)).toNat = 48 + m := by
  interval_cases m <;> decide

theorem isDigit_digitChar (m : Nat) (h : m < 10) : (Char.ofNat (48 + m)).isDigit = true := by
  interval_cases m <;> decide

theorem natNumeralChars_all_digits (n : Nat) : ∀ c ∈ natNumeralChars n, c.isDigit = true := by
  induction n using Nat.strong_induction_on with
  | _ n ih =>
    unfold natNumeralChars
    split
    · intro c hc
      rw [List.mem_singleton] at hc
      subst hc
      exact isDigit_digitChar n (by assumption)
    · intro c hc
      rcases List.mem_append.mp hc with h1 | h1
      · exact ih (n / 10) (by omega) c h1
      · rw [List.mem_singleton] at h1
        subst h1
        exact isDigit_digitChar _ (Nat.mod_lt _ (by norm_num))

theorem natNumeralChars_ne_nil (n : Nat) : natNumeralChars n ≠ [] := by
  unfold natNumeralChars
  split <;> simp

theorem digitsToNat_natNumeralChars (n : Nat) : digitsToNat (natNumeralChars n) = n := by
  induction n using Nat.strong_induction_on with
  | _ n ih =>
    unfold natNumeralChars
    split
    · next h =>
      simp only [digitsToNat, List.foldl_cons, List.foldl_nil]
      rw [toNat_digitChar n h]
      omega
    · next h =>
      rw [digitsToNat_append, ih (n / 10) (by omega),
        toNat_digitChar (n % 10) (Nat.mod_lt _ (by norm_num))]
      omega

theorem dropWhile_cons_of_neg (p : Char → Bool) (a : Char) (l : List Char)
    (h : p a = false) : (a :: l).dropWhile p = a :: l := by
  rw [List.dropWhile_cons, h]
  simp

theorem dropWhile_eq_self_head (p : Char → Bool) (l : List Char)
    (h : ∀ c, l.head? = some c → p c = false) : l.dropWhile p = l := by
  cases l with
  | nil => rfl
  | cons a t => exact dropWhile_cons_of_neg p a t (h a rfl)

theorem rdropWhileB_eq_self (p : Char → Bool) (l : List Char)
    (h : ∀ c ∈ l, p c = false) : rdropWhileB p l = l := by
  unfold rdropWhileB
  rw [dropWhile_eq_self_head p _ (fun c hc =>
    h c (List.mem_reverse.mp (List.mem_of_mem_head? hc)))]
  exact List.reverse_reverse l

theorem jsTrim_eq_self (s : String) (h : ∀ c ∈ s.data, jsWhitespace c = false) :
    jsTrim s = s := by
  unfold jsTrim
  rw [dropWhile_eq_self_head _ _ (fun c hc => h c (List.mem_of_mem_head? hc)),
    rdropWhileB_eq_self _ _ h]

theorem takeWhile_all (p : Char → Bool) (l : List Char) (h : ∀ c ∈ l, p c = true) :
    l.takeWhile p = l := by
  induction l with
  | nil => rfl
  | cons a t ih =>
    rw [List.takeWhile_cons, h a (List.mem_cons_self a t)]
    simp only [if_true]
    rw [ih (fun c hc => h c (List.mem_cons_of_mem a hc))]

theorem takeWhile_all_append (p : Char → Bool) (l l2 : List Char)
    (h : ∀ c ∈ l, p c = true) : (l ++ l2).takeWhile p = l ++ l2.takeWhile p := by
  induction l with
  | nil => rfl
  | cons a t ih =>
    rw [List.cons_append, List.takeWhile_cons, h a (List.mem_cons_self a t)]
    simp only [if_true]
    rw [ih (fun c hc => h c (List.mem_cons_of_mem a hc))]
    rfl

theorem parseIntBase10_digits_junk (s : String) (dl junk : List Char)
    (hs : s.data = dl ++ junk) (hd : dl ≠ [])
    (hall : ∀ c ∈ dl, c.isDigit = true)
    (hj : ∀ c, junk.head? = some c → c.isDigit = false) :
    parseIntBase10 s = some ((digitsToNat dl : Nat) : Int) := by
  obtain ⟨d, rest, rfl⟩ := List.exists_cons_of_ne_nil hd
  have hdd : d.isDigit = true := hall d (List.mem_cons_self d rest)
  have hjunkTake : junk.takeWhile (fun c => c.isDigit) = [] := by
    cases junk with
    | nil => rfl
    | cons j t =>
      rw [List.takeWhile_cons, hj j rfl]
      simp
  simp only [parseIntBase10, hs]
  have h1 : ((d :: rest) ++ junk).dropWhile jsWhitespace = (d :: rest) ++ junk := by
    rw [List.cons_append]
    exact dropWhile_cons_of_neg _ _ _ (digit_not_ws d hdd)
  rw [h1]
  have hhead : ((d :: rest) ++ junk).head? = some d := rfl
  rw [hhead]
  have hminus : (some d == some ('-')) = false :=
    beq_eq_false_iff_ne.mpr (by simpa using isDigit_ne d ('-') hdd (by decide))
  have hplus : (some d == some ('+')) = false :=
    beq_eq_false_iff_ne.mpr (by simpa using isDigit_ne d ('+') hdd (by decide))
  rw [hminus, hplus]
  simp only [Bool.false_or, Bool.or_self, if_false, Bool.false_eq_true]
  rw [takeWhile_all_append _ _ _ hall, hjunkTake, List.append_nil]
  simp [hd]

theorem string_ne_empty_of_data (s : String) (h : s.data ≠ []) : (s == "") = false :=
  beq_eq_false_iff_ne.mpr (fun he => h (by rw [he]))

theorem normalizeIfMatch_digits_junk (s : String) (dl junk : List Char)
    (hs : s.data = dl ++ junk) (hd : dl ≠ [])
    (hall : ∀ c ∈ dl, c.isDigit = true)
    (hjd : ∀ c, junk.head? = some c → c.isDigit = false)
    (hjw : ∀ c ∈ junk, jsWhitespace c = false)
    (hpos : 0 < digitsToNat dl) :
    normalizeIfMatch (some s) = some ((digitsToNat dl : Nat) : Int) := by
  have hne : s.data ≠ [] := by
    rw [hs]
    intro h
    exact hd (List.append_eq_nil.mp h).1
  have hsne : (s == "") = false := string_ne_empty_of_data s hne
  have hws : ∀ c ∈ s.data, jsWhitespace c = false := by
    intro c hc
    rw [hs] at hc
    rcases List.mem_append.mp hc with h1 | h1
    · exact digit_not_ws c (hall c h1)
    · exact hjw c h1
  have htrim : jsTrim s = s := jsTrim_eq_self s hws
  obtain ⟨d, rest, hdl⟩ := List.exists_cons_of_ne_nil hd
  have hdd : d.isDigit = true := hall d (by rw [hdl]; exact List.mem_cons_self d rest)
  have hhead : s.data.head? = some d := by
    rw [hs, hdl]
    rfl
  have hq : (s.data.head? == some ('"')) = false := by
    rw [hhead]
    exact beq_eq_false_iff_ne.mpr (by simpa using isDigit_ne d ('"') hdd (by decide))
  have hparse := parseIntBase10_digits_junk s dl junk hs hd hall hjd
  simp only [normalizeIfMatch, hsne, Bool.false_eq_true, if_false, htrim, hq,
    Bool.false_and, hparse]
  rw [if_neg (by omega : ¬((digitsToNat dl : Nat) : Int) ≤ 0)]

theorem normalizeIfMatch_quoted_digits (s : String) (dl : List Char)
    (hs : s.data = ('"') :: (dl ++ [('"')])) (hd : dl ≠ [])
    (hall : ∀ c ∈ dl, c.isDigit = true)
    (hpos : 0 < digitsToNat dl) :
    normalizeIfMatch (some s) = some ((digitsToNat dl : Nat) : Int) := by
  have hne : s.data ≠ [] := by rw [hs]; simp
  have hsne : (s == "") = false := string_ne_empty_of_data s hne
  have hws : ∀ c ∈ s.data, jsWhitespace c = false := by
    intro c hc
    rw [hs] at hc
    rcases List.mem_cons.mp hc with h1 | h1
    · subst h1; decide
    · rcases List.mem_append.mp h1 with h2 | h2
      · exact digit_not_ws c (hall c h2)
      · rw [List.mem_singleton] at h2
        subst h2; decide
  have htrim : jsTrim s = s := jsTrim_eq_self s hws
  have hhead : (s.data.head? == some ('"')) = true := by rw [hs]; rfl
  have hlast : (s.data.getLast? == some ('"')) = true := by
    rw [hs, show (('"') :: (dl ++ [('"')])) = (('"') :: dl) ++ [('"')] from rfl,
      List.getLast?_concat]
    rfl
  have hdrop : (s.data.drop 1).dropLast = dl := by
    rw [hs]
    simp only [List.drop_one, List.tail_cons, List.dropLast_concat]
  have hparse : parseIntBase10 (String.mk dl) = some ((digitsToNat dl : Nat) : Int) :=
    parseIntBase10_digits_junk (String.mk dl) dl [] (by simp) hd hall (by intro c hc; cases hc)
  simp only [normalizeIfMatch, hsne, Bool.false_eq_true, if_false, htrim, hhead, hlast,
    Bool.and_self, if_true, hdrop, hparse]
  rw [if_neg (by omega : ¬((digitsToNat dl : Nat) : Int) ≤ 0)]

theorem validateIfMatch_of_normalize (s : String) (hne : (s == "") = false) (v : Int)
    (h : normalizeIfMatch (some s) = some v) : validateIfMatch (some s) = .ok (some v) := by
  simp only [validateIfMatch, hne, Bool.false_eq_true, if_false, h]

/-- C8 (amended): an absent or empty `If-Match` is no precondition; the bare
decimal and the quoted decimal of a positive integer `n` are accepted with
precondition version `n`; strings with no leading digits (e.g. `"0"`,
`"abc"`) raise a precondition failure (not a validation error); but the
acceptance test is `parseInt`'s, so any string whose trimmed, unquoted form
begins with the digits of a positive integer is also accepted, yielding the
value of those leading digits and ignoring the rest (e.g. `"3x"` ↦ 3). -/
theorem c8_ifmatch_parseint :
    ∀ (n : Nat) (junk : List Char) (c : Char), 0 < n →
      (validateIfMatch (some (specNumeral n)) = .ok (some (n : Int)))
    ∧ (validateIfMatch (some (quoteStr (specNumeral n))) = .ok (some (n : Int)))
    ∧ (validateIfMatch none = .ok none ∧ validateIfMatch (some "") = .ok none)
    ∧ (validateIfMatch (some "0") = .error .precondition
       ∧ validateIfMatch (some "abc") = .error .precondition)
    ∧ (junk.head? = some c → c.isDigit = false → (∀ x ∈ junk, jsWhitespace x = false) →
        validateIfMatch (some (String.mk (natNumeralChars n ++ junk))) = .ok (some (n : Int)))
    := by
  intro n junk c hn
  have hpos : 0 < digitsToNat (natNumeralChars n) := by
    rw [digitsToNat_natNumeralChars]; exact hn
  refine ⟨?_, ?_, ⟨rfl, by decide⟩, ⟨by decide, by decide⟩, ?_⟩
  · have h := normalizeIfMatch_digits_junk (specNumeral n) (natNumeralChars n) []
      (by simp [specNumeral]) (natNumeralChars_ne_nil n) (natNumeralChars_all_digits n)
      (by intro c hc; cases hc) (by intro c hc; cases hc) hpos
    rw [digitsToNat_natNumeralChars] at h
    exact validateIfMatch_of_normalize _
      (string_ne_empty_of_data _ (by simp [specNumeral, natNumeralChars_ne_nil n])) _ h
  · have h := normalizeIfMatch_quoted_digits (quoteStr (specNumeral n)) (natNumeralChars n)
      (by simp [quoteStr, specNumeral, String.data_append]) (natNumeralChars_ne_nil n)
      (natNumeralChars_all_digits n) hpos
    rw [digitsToNat_natNumeralChars] at h
    exact validateIfMatch_of_normalize _
      (string_ne_empty_of_data _ (by simp [quoteStr, specNumeral, String.data_append])) _ h
  · intro hjh hjd hjw
    have h := normalizeIfMatch_digits_junk (String.mk (natNumeralChars n ++ junk))
      (natNumeralChars n) junk rfl (natNumeralChars_ne_nil n) (natNumeralChars_all_digits n)
      (by intro x hx; rw [hjh] at hx; cases hx; exact hjd) hjw hpos
    rw [digitsToNat_natNumeralChars] at h
    exact validateIfMatch_of_normalize _
      (string_ne_empty_of_data _ (by simp [natNumeralChars_ne_nil n])) _ h

/-- C8 witness: `n = 3` with junk `x` — the string `3x` is accepted with
version 3. -/
theorem c8_witness :
    0 < 3
  ∧ validateIfMatch (some (String.mk (natNumeralChars 3 ++ [('x')]))) = .ok (some (3 : Int)) :=
  ⟨by decide,
    (c8_ifmatch_parseint 3 [('x')] ('x') (by decide)).2.2.2.2 rfl (by decide)
      (by intro x hx; rw [List.mem_singleton] at hx; subst hx; decide)⟩

/-! Lemmas on the service validators, for the empty-key claim. -/

theorem validateKey_cases (cfg : SvcConfig) (k : String) :
    validateKey cfg k = .ok () ∨ validateKey cfg k = .error .validation := by
  unfold validateKey
  split
  · right; rfl
  · split
    · right; rfl
    · left; rfl

theorem validateValue_cases (cfg : SvcConfig) (v : String) :
    validateValue cfg v = .ok () ∨ validateValue cfg v = .error .validation := by
  unfold validateValue
  split
  · right; rfl
  · left; rfl

theorem validateTtlSeconds_cases (t : Option Int) :
    (∃ u, validateTtlSeconds t = .ok u) ∨ validateTtlSeconds t = .error .validation := by
  cases t with
  | none => exact Or.inl ⟨none, rfl⟩
  | some x =>
    by_cases h : x ≤ 0
    · right
      simp [validateTtlSeconds, h]
    · exact Or.inl ⟨some x.toNat, by simp [validateTtlSeconds, h]⟩

theorem validateKey_empty (cfg : SvcConfig) : validateKey cfg "" = .error .validation := by
  simp [validateKey]

theorem validateKeysAll_mem_empty (cfg : SvcConfig) :
    ∀ keys : List String, ("") ∈ keys → validateKeysAll cfg keys = .error .validation := by
  intro keys
  induction keys with
  | nil => intro h; cases h
  | cons k rest ih =>
    intro h
    rcases List.mem_cons.mp h with he | he
    · rw [← he]
      simp [validateKeysAll, validateKey_empty]
    · rcases validateKey_cases cfg k with hk | hk
      · simp [validateKeysAll, hk, ih he]
      · simp [validateKeysAll, hk]

theorem validateIfMatch_jsIntToString_pos (v : Int) (hv : 0 < v) :
    validateIfMatch (some (jsIntToString v)) = .ok (some ((v.natAbs : Nat) : Int)) := by
  unfold jsIntToString
  rw [if_neg (by omega)]
  have hpos : 0 < digitsToNat (natNumeralChars v.natAbs) := by
    rw [digitsToNat_natNumeralChars]; omega
  have h := normalizeIfMatch_digits_junk (String.mk (natNumeralChars v.natAbs))
    (natNumeralChars v.natAbs) [] (by simp) (natNumeralChars_ne_nil _)
    (natNumeralChars_all_digits _) (by intro c hc; cases hc) (by intro c hc; cases hc) hpos
  rw [digitsToNat_natNumeralChars] at h
  exact validateIfMatch_of_normalize _
    (string_ne_empty_of_data _ (by simp [natNumeralChars_ne_nil _])) _ h

theorem validateEntry_cases (cfg : SvcConfig) (e : ServiceBatchPutEntry)
    (hifm : e.ifMatchVersion = none ∨ ∃ v, e.ifMatchVersion = some v ∧ 0 < v) :
    (∃ e', validateEntry cfg e = .ok e') ∨ validateEntry cfg e = .error .validation := by
  unfold validateEntry
  rcases validateKey_cases cfg e.key with hk | hk
  · rw [hk]
    rcases validateValue_cases cfg e.valueJson with hv | hv
    · rw [hv]
      rcases validateTtlSeconds_cases e.ttlSeconds with ⟨u, ht⟩ | ht
      · rw [ht]
        rcases hifm with h0 | ⟨v, hv0, hvp⟩
        · rw [h0]
          exact Or.inl ⟨_, rfl⟩
        · rw [hv0, show ((some v).map jsIntToString) = some (jsIntToString v) from rfl,
            validateIfMatch_jsIntToString_pos v hvp]
          exact Or.inl ⟨_, rfl⟩
      · rw [ht]; right; rfl
    · rw [hv]; right; rfl
  · rw [hk]; right; rfl

theorem validateEntriesAll_mem_empty (cfg : SvcConfig) :
    ∀ entries : List ServiceBatchPutEntry,
      (∃ e ∈ entries, e.key = "") →
      (∀ e ∈ entries, e.ifMatchVersion = none ∨ ∃ v, e.ifMatchVersion = some v ∧ 0 < v) →
      validateEntriesAll cfg entries = .error .validation := by
  intro entries
  induction entries with
  | nil =>
    intro h _
    obtain ⟨e, he, _⟩ := h
    cases he
  | cons e rest ih =>
    intro h hifm
    obtain ⟨e0, he0, hk0⟩ := h
    rcases List.mem_cons.mp he0 with he | he
    · subst he
      have hve : validateEntry cfg e0 = .error .validation := by
        unfold validateEntry
        rw [hk0, validateKey_empty]
      simp [validateEntriesAll, hve]
    · rcases validateEntry_cases cfg e (hifm e (List.mem_cons_self e rest)) with ⟨e', he'⟩ | he'
      · simp [validateEntriesAll, he',
          ih ⟨e0, he, hk0⟩ (fun x hx => hifm x (List.mem_cons_of_mem e hx))]
      · simp [validateEntriesAll, he']

/-- C10: every service operation taking a key rejects an empty-string key
with a validation error before the adapter runs, leaving the backend state
unchanged (for `batchPut`, provided the entries do not independently fail
the `If-Match` validation with a precondition error first). -/
theorem c10_empty_key_validation :
    ∀ (cfg : SvcConfig) (tbl : Table) (s : Scope) (valueJson : String) (ttl : Option Int)
      (ifm : Option String) (now : Millis),
      serviceGetItem cfg tbl s "" now = (.error .validation, tbl)
    ∧ serviceSetItem cfg tbl s "" valueJson ttl ifm now = (.error .validation, tbl)
    ∧ serviceRemoveItem cfg tbl s "" ifm now = (.error .validation, tbl)
    ∧ (∀ keys, ("") ∈ keys → serviceBatchGet cfg tbl s keys now = (.error .validation, tbl))
    ∧ (∀ entries, (∃ e ∈ entries, e.key = "") →
        (∀ e ∈ entries, e.ifMatchVersion = none ∨ ∃ v, e.ifMatchVersion = some v ∧ 0 < v) →
        serviceBatchPut cfg tbl s entries now = (.error .validation, tbl)) := by
  intro cfg tbl s valueJson ttl ifm now
  have hsc : validateScope s = .ok () ∨ validateScope s = .error .validation := by
    unfold validateScope
    split
    · right; rfl
    · left; rfl
  refine ⟨?_, ?_, ?_, ?_, ?_⟩
  · rcases hsc with h | h <;> simp [serviceGetItem, h, validateKey_empty]
  · rcases hsc with h | h <;> simp [serviceSetItem, h, validateKey_empty]
  · rcases hsc with h | h <;> simp [serviceRemoveItem, h, validateKey_empty]
  · intro keys hk
    have hne : keys.isEmpty = false := by
      cases keys
      · cases hk
      · rfl
    have hvk := validateKeysAll_mem_empty cfg keys hk
    rcases hsc with h | h
    · by_cases hsz : cfg.maxBatchSize < keys.length
      · simp [serviceBatchGet, h, hne, hsz]
      · simp [serviceBatchGet, h, hne, hsz, hvk]
    · simp [serviceBatchGet, h]
  · intro entries hk hifm
    have hne : entries.isEmpty = false := by
      obtain ⟨e, he, _⟩ := hk
      cases entries
      · cases he
      · rfl
    have hve := validateEntriesAll_mem_empty cfg entries hk hifm
    rcases hsc with h | h
    · by_cases hsz : cfg.maxBatchSize < entries.length
      · simp [serviceBatchPut, h, hne, hsz]
      · simp [serviceBatchPut, h, hne, hsz, hve]
    · simp [serviceBatchPut, h]

/-- C10 witness: a `getItem` with the empty key, and a `batchPut` whose
second entry has the empty key, are both rejected with a validation error on
the empty store. -/
theorem c10_witness :
    serviceGetItem {} [] ⟨"t", "n", "u"⟩ "" 0 = (.error .validation, [])
  ∧ serviceBatchPut {} [] ⟨"t", "n", "u"⟩
      [⟨"a", "1", none, none⟩, ⟨"", "2", none, none⟩] 0 = (.error .validation, []) :=
  ⟨(c10_empty_key_validation {} [] ⟨"t", "n", "u"⟩ "x" none none 0).1,
   (c10_empty_key_validation {} [] ⟨"t", "n", "u"⟩ "x" none none 0).2.2.2.2
     [⟨"a", "1", none, none⟩, ⟨"", "2", none, none⟩]
     ⟨⟨"", "2", none, none⟩, by decide, rfl⟩
     (by intro e he; fin_cases he <;> exact Or.inl rfl)⟩

theorem jsTruthy_num (q : Int) (h : q ≠ 0) : jsTruthy (.num q) = true := by
  unfold jsTruthy
  split <;> simp_all

/-- C7 (amended): through the service, the effective list limit is
`clampLimit(limit, maxListLimit, 50)`; a negative limit is clamped to 1 and
a limit above `maxListLimit` is clamped to `maxListLimit`, an absent or
non-finite limit yields the default 50 — but `limit = 0` is falsy in
JavaScript and therefore also yields the default 50, not 1. -/
theorem c7_clamp_limit :
    ∀ (cfg : SvcConfig) (tbl : Table) (s : Scope) (pfx cur : Option String) (q : Int)
      (now : Millis),
      clampLimit none cfg.maxListLimit 50 = 50
    ∧ clampLimit (some .nan) cfg.maxListLimit 50 = 50
    ∧ clampLimit (some .posInf) cfg.maxListLimit 50 = 50
    ∧ clampLimit (some .negInf) cfg.maxListLimit 50 = 50
    ∧ clampLimit (some (.num 0)) cfg.maxListLimit 50 = 50
    ∧ (q < 0 → 1 ≤ cfg.maxListLimit → clampLimit (some (.num q)) cfg.maxListLimit 50 = 1)
    ∧ (0 < q → q ≤ cfg.maxListLimit → clampLimit (some (.num q)) cfg.maxListLimit 50 = q)
    ∧ (1 ≤ cfg.maxListLimit → cfg.maxListLimit < q →
        clampLimit (some (.num q)) cfg.maxListLimit 50 = cfg.maxListLimit)
    ∧ (validateScope s = .ok () →
        (pfx = none ∨ ∃ p, pfx = some p ∧ ¬cfg.maxKeyLength < p.length) →
        ∀ lim : Option JSNumber, serviceList cfg tbl s pfx cur lim now =
          .ok (sqlList tbl s ⟨pfx, cur, some (clampLimit lim cfg.maxListLimit 50).toNat⟩ now))
    := by
  intro cfg tbl s pfx cur q now
  refine ⟨rfl, rfl, rfl, rfl, rfl, ?_, ?_, ?_, ?_⟩
  · intro h1 h2
    simp only [clampLimit, jsTruthy_num q (by omega), jsIsFinite, jsTrunc, Bool.not_true,
      Bool.false_or, if_false, Bool.false_eq_true]
    omega
  · intro h1 h2
    simp only [clampLimit, jsTruthy_num q (by omega), jsIsFinite, jsTrunc, Bool.not_true,
      Bool.false_or, if_false, Bool.false_eq_true]
    omega
  · intro h1 h2
    simp only [clampLimit, jsTruthy_num q (by omega), jsIsFinite, jsTrunc, Bool.not_true,
      Bool.false_or, if_false, Bool.false_eq_true]
    omega
  · intro hval hp lim
    unfold serviceList
    rw [hval]
    rcases hp with h | ⟨p, hp1, hp2⟩
    · rw [h]
    · rw [hp1]
      simp [hp2]

/-- C7 witness: with the default config, limit −5 clamps to 1 while limit 0
falls back to 50. -/
theorem c7_witness :
    ((-5 : Int) < 0 ∧ 1 ≤ ({} : SvcConfig).maxListLimit)
  ∧ clampLimit (some (.num (-5))) ({} : SvcConfig).maxListLimit 50 = 1
  ∧ clampLimit (some (.num 0)) ({} : SvcConfig).maxListLimit 50 = 50 :=
  ⟨⟨by decide, by decide⟩,
    (c7_clamp_limit {} [] ⟨"t", "n", "u"⟩ none none (-5) 0).2.2.2.2.2.1 (by decide) (by decide),
    (c7_clamp_limit {} [] ⟨"t", "n", "u"⟩ none none (-5) 0).2.2.2.2.1⟩

/-! Round-trip lemmas for the cursor encoding (UTF-8 and base64url). -/

theorem colon_split_eq : ∀ (a c b d : List Char),
    (':') ∉ a → (':') ∉ c → a ++ (':') :: b = c ++ (':') :: d → a = c ∧ b = d := by
  intro a
  induction a with
  | nil =>
    intro c b d _ hc h
    cases c with
    | nil => simpa using h
    | cons x xs =>
      simp only [List.nil_append, List.cons_append, List.cons.injEq] at h
      exfalso
      apply hc
      rw [h.1]
      exact List.mem_cons_self _ _
  | cons y ys ih =>
    intro c b d ha hc h
    cases c with
    | nil =>
      simp only [List.nil_append, List.cons_append, List.cons.injEq] at h
      exfalso
      apply ha
      rw [← h.1]
      exact List.mem_cons_self _ _
    | cons x xs =>
      simp only [List.cons_append, List.cons.injEq] at h
      obtain ⟨h1, h2⟩ := h
      obtain ⟨ha1, hb⟩ := ih xs b d (fun hm => ha (List.mem_cons_of_mem _ hm))
        (fun hm => hc (List.mem_cons_of_mem _ hm)) h2
      exact ⟨by rw [h1, ha1], hb⟩

theorem colon_split_prefix : ∀ (a c b d : List Char),
    (':') ∉ a → (':') ∉ c → a ++ (':') :: b <+: c ++ (':') :: d → a = c ∧ b <+: d := by
  intro a
  induction a with
  | nil =>
    intro c b d _ hc h
    cases c with
    | nil => exact ⟨rfl, by simpa using h⟩
    | cons x xs =>
      rw [List.nil_append, List.cons_append] at h
      have h1 := (List.cons_prefix_cons.mp h).1
      exfalso
      apply hc
      rw [← h1]
      exact List.mem_cons_self _ _
  | cons y ys ih =>
    intro c b d ha hc h
    cases c with
    | nil =>
      rw [List.nil_append, List.cons_append] at h
      have h1 := (List.cons_prefix_cons.mp h).1
      exfalso
      apply ha
      rw [h1]
      exact List.mem_cons_self _ _
    | cons x xs =>
      rw [List.cons_append, List.cons_append] at h
      obtain ⟨h1, h2⟩ := List.cons_prefix_cons.mp h
      obtain ⟨ha1, hb⟩ := ih xs b d (fun hm => ha (List.mem_cons_of_mem _ hm))
        (fun hm => hc (List.mem_cons_of_mem _ hm)) h2
      exact ⟨by rw [h1, ha1], hb⟩

theorem toScopePrefix_data (s : Scope) : (toScopePrefix s).data =
    ('t') :: (':') :: (s.tenantId.data ++ (':') :: ('n') :: (':') ::
      (s.nsp.data ++ (':') :: ('u') :: (':') ::
        (s.userId.data ++ [(':'), ('k'), (':')]))) := by
  have h1 : ("t:" : String).data = [('t'), (':')] := rfl
  have h2 : (":n:" : String).data = [(':'), ('n'), (':')] := rfl
  have h3 : (":u:" : String).data = [(':'), ('u'), (':')] := rfl
  have h4 : (":k:" : String).data = [(':'), ('k'), (':')] := rfl
  simp [toScopePrefix, String.data_append, h1, h2, h3, h4]

theorem toRedisKey_data (s : Scope) (k : String) :
    (toRedisKey s k).data = (toScopePrefix s).data ++ k.data := by
  simp [toRedisKey, String.data_append]

theorem toRedisKey_inj (A B : Scope) (kA kB : String) (hA : colonFreeScope A)
    (hB : colonFreeScope B) (h : toRedisKey A kA = toRedisKey B kB) : A = B ∧ kA = kB := by
  obtain ⟨hA1, hA2, hA3⟩ := hA
  obtain ⟨hB1, hB2, hB3⟩ := hB
  have hd := congrArg String.data h
  rw [toRedisKey_data, toRedisKey_data, toScopePrefix_data, toScopePrefix_data] at hd
  simp only [List.cons_append, List.append_assoc, List.cons.injEq, true_and] at hd
  obtain ⟨hT, hd2⟩ := colon_split_eq _ _ _ _ hA1 hB1 hd
  simp only [List.cons.injEq, true_and] at hd2
  obtain ⟨hN, hd3⟩ := colon_split_eq _ _ _ _ hA2 hB2 hd2
  simp only [List.cons.injEq, true_and] at hd3
  obtain ⟨hU, hd4⟩ := colon_split_eq _ _ _ _ hA3 hB3 hd3
  simp only [List.cons.injEq, true_and] at hd4
  refine ⟨?_, String.ext hd4⟩
  cases A
  cases B
  simp only [Scope.mk.injEq]
  exact ⟨String.ext hT, String.ext hN, String.ext hU⟩

theorem scopePrefix_not_prefix_of_ne (A B : Scope) (hA : colonFreeScope A)
    (hB : colonFreeScope B) (hne : A ≠ B) (kA : String) :
    ¬(toScopePrefix B).data <+: (toRedisKey A kA).data := by
  intro h
  obtain ⟨hA1, hA2, hA3⟩ := hA
  obtain ⟨hB1, hB2, hB3⟩ := hB
  rw [toRedisKey_data, toScopePrefix_data, toScopePrefix_data] at h
  simp only [List.cons_append, List.append_assoc] at h
  have h1 := (List.cons_prefix_cons.mp h).2
  have h2 := (List.cons_prefix_cons.mp h1).2
  obtain ⟨hT, h3⟩ := colon_split_prefix _ _ _ _ hB1 hA1 h2
  have h4 := (List.cons_prefix_cons.mp h3).2
  have h5 := (List.cons_prefix_cons.mp h4).2
  obtain ⟨hN, h6⟩ := colon_split_prefix _ _ _ _ hB2 hA2 h5
  have h7 := (List.cons_prefix_cons.mp h6).2
  have h8 := (List.cons_prefix_cons.mp h7).2
  obtain ⟨hU, -⟩ := colon_split_prefix _ _ _ _ hB3 hA3 h8
  apply hne
  cases A
  cases B
  simp only [Scope.mk.injEq]
  exact ⟨String.ext hT.symm, String.ext hN.symm, String.ext hU.symm⟩

theorem find?_map_g (st : RStore) (x y : String) (v : Envelope) (hxy : (x == y) = false) :
    (st.map (fun e => if e.1 == x then (x, v) else e)).find? (fun e => e.1 == y) =
      st.find? (fun e => e.1 == y) := by
  induction st with
  | nil => rfl
  | cons e t ih =>
    by_cases hex : e.1 == x
    · have hg : (if e.1 == x then (x, v) else e) = (x, v) := by rw [if_pos hex]
      have hey : (e.1 == y) = false := by
        have h1 : e.1 = x := by simpa using hex
        rw [h1]
        exact hxy
      rw [List.map_cons, hg, List.find?_cons_of_neg _ (by simp [hxy]),
        List.find?_cons_of_neg _ (by simp [hey]), ih]
    · have hg : (if e.1 == x then (x, v) else e) = e := by rw [if_neg hex]
      rw [List.map_cons, hg]
      cases hey : (e.1 == y)
      · rw [List.find?_cons_of_neg _ (by simp [hey]),
          List.find?_cons_of_neg _ (by simp [hey]), ih]
      · simp only [List.find?_cons, hey]

theorem rlookup_rset_ne (st : RStore) (x y : String) (v : Envelope) (h : x ≠ y) :
    rlookup (rset st x v) y = rlookup st y := by
  unfold rset
  by_cases ha : st.any (fun e => e.1 == x)
  · rw [if_pos ha]
    unfold rlookup
    rw [find?_map_g st x y v (beq_eq_false_iff_ne.mpr h)]
  · rw [if_neg ha]
    unfold rlookup
    rw [List.find?_append]
    have hx : List.find? (fun e => e.1 == y) [(x, v)] = none := by
      rw [List.find?_cons_of_neg _ (by simp [beq_eq_false_iff_ne.mpr h])]
      rfl
    rw [hx, Option.or_none]

theorem rlookup_rdel_ne (st : RStore) (x y : String) (h : x ≠ y) :
    rlookup (rdel st x) y = rlookup st y := by
  unfold rdel rlookup
  induction st with
  | nil => rfl
  | cons e t ih =>
    by_cases hex : e.1 == x
    · have hey : (e.1 == y) = false := by
        have h1 : e.1 = x := by simpa using hex
        rw [h1]
        exact beq_eq_false_iff_ne.mpr h
      rw [List.filter_cons_of_neg (by simpa using hex),
        List.find?_cons_of_neg _ (by simp [hey]), ih]
    · rw [List.filter_cons_of_pos (by simpa using hex)]
      cases hey : (e.1 == y)
      · rw [List.find?_cons_of_neg _ (by simp [hey]),
          List.find?_cons_of_neg _ (by simp [hey]), ih]
      · simp only [List.find?_cons, hey]

theorem filterMap_map_set {β : Type} (f : String × Envelope → Option β) (x : String)
    (v : Envelope) (hx : ∀ env, f (x, env) = none) :
    ∀ st : RStore,
      (st.map (fun e => if e.1 == x then (x, v) else e)).filterMap f = st.filterMap f := by
  intro st
  induction st with
  | nil => rfl
  | cons e t ih =>
    by_cases hex : e.1 == x
    · have hg : (if e.1 == x then (x, v) else e) = (x, v) := by rw [if_pos hex]
      have hfe : f e = none := by
        have h1 : e.1 = x := by simpa using hex
        have h2 : e = (x, e.2) := by rw [← h1]
        rw [h2, hx e.2]
      rw [List.map_cons, hg, List.filterMap_cons_none (hx v),
        List.filterMap_cons_none hfe, ih]
    · have hg : (if e.1 == x then (x, v) else e) = e := by rw [if_neg hex]
      rw [List.map_cons, hg]
      cases hfe : f e with
      | none => rw [List.filterMap_cons_none hfe, List.filterMap_cons_none hfe, ih]
      | some b => rw [List.filterMap_cons_some hfe, List.filterMap_cons_some hfe, ih]

theorem filterMap_rset {β : Type} (f : String × Envelope → Option β) (x : String)
    (v : Envelope) (hx : ∀ env, f (x, env) = none) (st : RStore) :
    (rset st x v).filterMap f = st.filterMap f := by
  unfold rset
  by_cases ha : st.any (fun e => e.1 == x)
  · rw [if_pos ha, filterMap_map_set f x v hx st]
  · rw [if_neg ha, List.filterMap_append, List.filterMap_cons_none (hx v)]
    simp

theorem filterMap_rdel {β : Type} (f : String × Envelope → Option β) (x : String)
    (hx : ∀ env, f (x, env) = none) (st : RStore) :
    (rdel st x).filterMap f = st.filterMap f := by
  unfold rdel
  induction st with
  | nil => rfl
  | cons e t ih =>
    by_cases hex : e.1 == x
    · have hfe : f e = none := by
        have h1 : e.1 = x := by simpa using hex
        have h2 : e = (x, e.2) := by rw [← h1]
        rw [h2, hx e.2]
      rw [List.filter_cons_of_neg (by simpa using hex), List.filterMap_cons_none hfe, ih]
    · rw [List.filter_cons_of_pos (by simpa using hex)]
      cases hfe : f e with
      | none => rw [List.filterMap_cons_none hfe, List.filterMap_cons_none hfe, ih]
      | some b => rw [List.filterMap_cons_some hfe, List.filterMap_cons_some hfe, ih]

theorem scope_eq_of_matches (A B : Scope) (r : Row) (hA : scopeMatches A r = true)
    (hB : scopeMatches B r = true) : A = B := by
  simp only [scopeMatches, Bool.and_eq_true, beq_iff_eq] at hA hB
  cases A
  cases B
  simp only [Scope.mk.injEq]
  obtain ⟨⟨hA1, hA2⟩, hA3⟩ := hA
  obtain ⟨⟨hB1, hB2⟩, hB3⟩ := hB
  exact ⟨hA1.symm.trans hB1, hA2.symm.trans hB2, hA3.symm.trans hB3⟩

theorem scopeMatches_newRow_false (A B : Scope) (hne : A ≠ B) (k v : String) (ver : Nat)
    (e : Option Millis) (ca ua : Millis) :
    scopeMatches B ⟨A.tenantId, A.nsp, A.userId, k, v, ver, e, ca, ua⟩ = false := by
  by_contra h
  rw [Bool.not_eq_false] at h
  have hAm : scopeMatches A ⟨A.tenantId, A.nsp, A.userId, k, v, ver, e, ca, ua⟩ = true := by
    simp [scopeMatches]
  exact hne (scope_eq_of_matches A B _ hAm h)

theorem scopeMatches_fields (B : Scope) (r : Row) (k2 v : String) (ver : Nat)
    (e : Option Millis) (ca ua : Millis) :
    scopeMatches B ⟨r.tenantId, r.nsp, r.userId, k2, v, ver, e, ca, ua⟩ =
      scopeMatches B r := rfl

theorem filter_scope_map_update (A B : Scope) (hne : A ≠ B) (k v : String) (ver : Nat)
    (eA : Option Millis) (n : Millis) :
    ∀ tbl : Table,
      (tbl.map (fun r => if pkMatches A k r then
        { r with valueJson := v, version := ver, expiresAt := eA, updatedAt := n }
        else r)).filter (scopeMatches B) = tbl.filter (scopeMatches B) := by
  intro tbl
  induction tbl with
  | nil => rfl
  | cons r t ih =>
    by_cases hpk : pkMatches A k r
    · have hA : scopeMatches A r = true := by
        have h := hpk
        simp only [pkMatches, Bool.and_eq_true] at h
        exact h.1
      have hB : scopeMatches B r = false := by
        by_contra hb
        rw [Bool.not_eq_false] at hb
        exact hne (scope_eq_of_matches A B r hA hb)
      rw [List.map_cons, if_pos hpk,
        List.filter_cons_of_neg (by rw [scopeMatches_fields]; simp [hB]),
        List.filter_cons_of_neg (by simp [hB]), ih]
    · rw [List.map_cons, if_neg hpk]
      cases hsB : scopeMatches B r
      · rw [List.filter_cons_of_neg (by simp [hsB]),
          List.filter_cons_of_neg (by simp [hsB]), ih]
      · rw [List.filter_cons_of_pos hsB, List.filter_cons_of_pos hsB, ih]

theorem scopeRows_put (A B : Scope) (hne : A ≠ B) (tbl : Table) (k v : String)
    (o : PutOptions) (now : Millis) :
    ((sqlPut tbl A k v o now).2).filter (scopeMatches B) = tbl.filter (scopeMatches B) := by
  simp only [sqlPut]
  split
  · rfl
  · by_cases hany : tbl.any (pkMatches A k)
    · rw [if_pos hany]
      exact filter_scope_map_update A B hne k v _ _ _ tbl
    · rw [if_neg hany, List.filter_append]
      have hnew : List.filter (scopeMatches B)
          [⟨A.tenantId, A.nsp, A.userId, k, v,
            (match activeCurrentSql tbl A k now with
              | some r => r.version + 1
              | none => 1),
            putExpiresAt o.ttlSeconds now,
            (match activeCurrentSql tbl A k now with
              | some r => r.createdAt
              | none => now), now⟩] = [] := by
        rw [List.filter_cons_of_neg (by simp [scopeMatches_newRow_false A B hne])]
        rfl
      rw [hnew, List.append_nil]

theorem filter_scope_not_pk (A B : Scope) (hne : A ≠ B) (k : String) :
    ∀ tbl : Table,
      (tbl.filter (fun r => !pkMatches A k r)).filter (scopeMatches B) =
        tbl.filter (scopeMatches B) := by
  intro tbl
  induction tbl with
  | nil => rfl
  | cons r t ih =>
    by_cases hpk : pkMatches A k r
    · have hA : scopeMatches A r = true := by
        have h := hpk
        simp only [pkMatches, Bool.and_eq_true] at h
        exact h.1
      have hB : scopeMatches B r = false := by
        by_contra hb
        rw [Bool.not_eq_false] at hb
        exact hne (scope_eq_of_matches A B r hA hb)
      rw [List.filter_cons_of_neg (by simp [hpk]), List.filter_cons_of_neg (by simp [hB]), ih]
    · rw [List.filter_cons_of_pos (by simp [hpk])]
      cases hsB : scopeMatches B r
      · rw [List.filter_cons_of_neg (by simp [hsB]),
          List.filter_cons_of_neg (by simp [hsB]), ih]
      · rw [List.filter_cons_of_pos hsB, List.filter_cons_of_pos hsB, ih]

theorem scopeRows_delete (A B : Scope) (hne : A ≠ B) (tbl : Table) (k : String)
    (ifm : Option Nat) (now : Millis) :
    ((sqlDelete tbl A k ifm now).2).filter (scopeMatches B) =
      tbl.filter (scopeMatches B) := by
  unfold sqlDelete
  cases hrow : getRow tbl A k false now with
  | none => rfl
  | some cur =>
    cases ifm with
    | some m =>
      dsimp only
      split
      · rfl
      · exact filter_scope_not_pk A B hne k tbl
    | none =>
      dsimp only
      exact filter_scope_not_pk A B hne k tbl

theorem scopeRows_batchPut (A B : Scope) (hne : A ≠ B) (now : Millis) :
    ∀ (entries : List BatchPutEntry) (tbl : Table),
      ((sqlBatchPut tbl A entries now).2).filter (scopeMatches B) =
        tbl.filter (scopeMatches B) := by
  intro entries
  induction entries with
  | nil => intro tbl; rfl
  | cons e rest ih =>
    intro tbl
    simp only [sqlBatchPut]
    cases hput : sqlPut tbl A e.key e.valueJson ⟨e.ttlSeconds, e.ifMatchVersion⟩ now with
    | mk res tbl1 =>
      have hp : tbl1.filter (scopeMatches B) = tbl.filter (scopeMatches B) := by
        have h := scopeRows_put A B hne tbl e.key e.valueJson
          ⟨e.ttlSeconds, e.ifMatchVersion⟩ now
        rw [hput] at h
        exact h
      cases res with
      | error err =>
        dsimp only
        exact hp
      | ok item =>
        dsimp only
        cases hrec : sqlBatchPut tbl1 A rest now with
        | mk res2 tbl2 =>
          have h2 : tbl2.filter (scopeMatches B) = tbl1.filter (scopeMatches B) := by
            have h := ih tbl1
            rw [hrec] at h
            exact h
          cases res2 with
          | ok items =>
            dsimp only
            exact h2.trans hp
          | error err =>
            dsimp only
            exact h2.trans hp

theorem find?_scoped (B : Scope) (p : Row → Bool) : ∀ tbl : Table,
    tbl.find? (fun r => scopeMatches B r && p r) = (tbl.filter (scopeMatches B)).find? p := by
  intro tbl
  induction tbl with
  | nil => rfl
  | cons r t ih =>
    by_cases hs : scopeMatches B r
    · rw [List.filter_cons_of_pos hs]
      cases hp : p r
      · rw [List.find?_cons_of_neg _ (by simp [hs, hp]),
          List.find?_cons_of_neg _ (by simp [hp]), ih]
      · simp only [List.find?_cons, hs, hp, Bool.true_and]
    · rw [List.filter_cons_of_neg (by simp [hs]), List.find?_cons_of_neg _ (by simp [hs]), ih]

theorem getRow_scoped (tbl : Table) (B : Scope) (key : String) (oa : Bool) (now : Millis) :
    getRow tbl B key oa now = (tbl.filter (scopeMatches B)).find?
      (fun r => r.key == key && (!oa || !isExpired r.expiresAt now)) := by
  unfold getRow
  rw [show (fun r => scopeMatches B r && r.key == key && (!oa || !isExpired r.expiresAt now))
      = fun r => scopeMatches B r && (r.key == key && (!oa || !isExpired r.expiresAt now))
    from funext fun r => by rw [Bool.and_assoc]]
  exact find?_scoped B _ tbl

theorem sqlGet_congr (tbl1 tbl2 : Table) (B : Scope) (key : String) (now : Millis)
    (h : tbl1.filter (scopeMatches B) = tbl2.filter (scopeMatches B)) :
    sqlGet tbl1 B key now = sqlGet tbl2 B key now := by
  unfold sqlGet
  rw [getRow_scoped, getRow_scoped, h]

theorem listRowMatches_scoped (s : Scope) (pfx ck : Option String) (now : Millis)
    (tbl : Table) :
    tbl.filter (listRowMatches s pfx ck now) = (tbl.filter (scopeMatches s)).filter
      (fun r => !isExpired r.expiresAt now &&
        ((match pfx with
          | some p => if p == "" then true else likeMatch (p.data ++ [('%')]) r.key.data
          | none => true) &&
         (match ck with
          | some c => if c == "" then true else strLt c r.key
          | none => true))) := by
  rw [List.filter_filter]
  apply List.filter_congr
  intro r _
  simp only [listRowMatches]
  generalize scopeMatches s r = w1
  generalize (!isExpired r.expiresAt now) = w2
  generalize (match pfx with
    | some p => if p == "" then true else likeMatch (p.data ++ [('%')]) r.key.data
    | none => true) = w3
  generalize (match ck with
    | some c => if c == "" then true else strLt c r.key
    | none => true) = w4
  cases w1 <;> cases w2 <;> cases w3 <;> cases w4 <;> rfl

theorem sqlList_congr (tbl1 tbl2 : Table) (B : Scope) (opts : ListOptions) (now : Millis)
    (h : tbl1.filter (scopeMatches B) = tbl2.filter (scopeMatches B)) :
    sqlList tbl1 B opts now = sqlList tbl2 B opts now := by
  unfold sqlList
  dsimp only
  rw [listRowMatches_scoped, listRowMatches_scoped, h]

theorem stripStars_cons_ne (a : Char) (l : List Char) (h : a ≠ ('*')) :
    stripStars (a :: l) = a :: l := by
  simp only [stripStars, if_neg h]

theorem globMatchGo_literal :
    ∀ (L : List Char),
      (∀ c ∈ L, c ≠ ('*') ∧ c ≠ ('?') ∧ c ≠ ('[') ∧ c ≠ ('\\')) →
      ∀ (f : Nat) (rest s : List Char), globMatchGo f (L ++ rest) s = true → L <+: s := by
  intro L
  induction L with
  | nil =>
    intro _ f rest s _
    exact List.nil_prefix
  | cons a L ih =>
    intro hL f rest s h
    obtain ⟨ha1, ha2, ha3, ha4⟩ := hL a (List.mem_cons_self _ _)
    cases f with
    | zero => simp [globMatchGo] at h
    | succ f =>
      cases s with
      | nil =>
        rw [List.cons_append] at h
        simp only [globMatchGo] at h
        rw [stripStars_cons_ne _ _ ha1] at h
        simp at h
      | cons c s =>
        rw [List.cons_append] at h
        simp only [globMatchGo] at h
        rw [if_neg ha1, if_neg ha2, if_neg ha3, if_neg ha4] at h
        by_cases hac : a = c
        · rw [if_pos hac] at h
          exact List.cons_prefix_cons.mpr
            ⟨hac, ih (fun x hx => hL x (List.mem_cons_of_mem _ hx)) f rest s h⟩
        · rw [if_neg hac] at h
          cases h

theorem globMatch_literal (L rest s : List Char)
    (hL : ∀ c ∈ L, c ≠ ('*') ∧ c ≠ ('?') ∧ c ≠ ('[') ∧ c ≠ ('\\'))
    (h : globMatch (L ++ rest) s = true) : L <+: s := by
  unfold globMatch at h
  cases s with
  | nil =>
    simp only [List.isEmpty_iff, List.append_eq_nil] at h
    rw [h.1]
  | cons c s => exact globMatchGo_literal L hL _ rest (c :: s) h

theorem toScopePrefix_globFree (B : Scope) (hB : globFreeScope B) :
    ∀ c ∈ (toScopePrefix B).data, c ≠ ('*') ∧ c ≠ ('?') ∧ c ≠ ('[') ∧ c ≠ ('\\') := by
  obtain ⟨h1, h2, h3⟩ := hB
  intro c hc
  rw [toScopePrefix_data] at hc
  rcases List.mem_cons.mp hc with rfl | hc
  · decide
  rcases List.mem_cons.mp hc with rfl | hc
  · decide
  rcases List.mem_append.mp hc with hm | hc
  · exact h1 c hm
  rcases List.mem_cons.mp hc with rfl | hc
  · decide
  rcases List.mem_cons.mp hc with rfl | hc
  · decide
  rcases List.mem_cons.mp hc with rfl | hc
  · decide
  rcases List.mem_append.mp hc with hm | hc
  · exact h2 c hm
  rcases List.mem_cons.mp hc with rfl | hc
  · decide
  rcases List.mem_cons.mp hc with rfl | hc
  · decide
  rcases List.mem_cons.mp hc with rfl | hc
  · decide
  rcases List.mem_append.mp hc with hm | hc
  · exact h3 c hm
  rcases List.mem_cons.mp hc with rfl | hc
  · decide
  rcases List.mem_cons.mp hc with rfl | hc
  · decide
  rcases List.mem_cons.mp hc with rfl | hc
  · decide
  exact absurd hc (List.not_mem_nil c)

theorem rListScanEntry_foreign (A B : Scope) (hA : colonFreeScope A)
    (hB : colonFreeScope B) (hgB : globFreeScope B) (hne : A ≠ B) (pfx : String)
    (ck : Option String) (now : Millis) (kA : String) (env : Envelope) :
    rListScanEntry B pfx ck now (toRedisKey A kA, env) = none := by
  unfold rListScanEntry
  have hnp : ¬(globMatch (toScopePrefix B ++ pfx ++ "*").data
      (toRedisKey A kA, env).1.data = true) := by
    intro h
    apply scopePrefix_not_prefix_of_ne A B hA hB hne kA
    rw [String.data_append, String.data_append, List.append_assoc] at h
    exact globMatch_literal _ _ _ (toScopePrefix_globFree B hgB) h
  rw [if_neg hnp]

theorem rPut_preserves (A B : Scope) (hA : colonFreeScope A) (hB : colonFreeScope B)
    (hgB : globFreeScope B) (hne : A ≠ B) (st : RStore) (k v : String) (o : PutOptions) (now : Millis) :
    (∀ k', rlookup ((rPut st A k v o now).2) (toRedisKey B k') =
      rlookup st (toRedisKey B k'))
    ∧ (∀ (pfx : String) (ck : Option String) (now2 : Millis),
        ((rPut st A k v o now).2).filterMap (rListScanEntry B pfx ck now2) =
          st.filterMap (rListScanEntry B pfx ck now2)) := by
  have hkne : ∀ k', toRedisKey A k ≠ toRedisKey B k' := fun k' he =>
    hne (toRedisKey_inj A B k k' hA hB he).1
  simp only [rPut]
  split
  · exact ⟨fun _ => rfl, fun _ _ _ => rfl⟩
  · constructor
    · intro k'
      exact rlookup_rset_ne st _ _ _ (hkne k')
    · intro pfx ck now2
      exact filterMap_rset _ _ _
        (fun env => rListScanEntry_foreign A B hA hB hgB hne pfx ck now2 k env) st

theorem rDelete_preserves (A B : Scope) (hA : colonFreeScope A) (hB : colonFreeScope B)
    (hgB : globFreeScope B) (hne : A ≠ B) (st : RStore) (k : String) (ifm : Option Nat) (now : Millis) :
    (∀ k', rlookup ((rDelete st A k ifm now).2) (toRedisKey B k') =
      rlookup st (toRedisKey B k'))
    ∧ (∀ (pfx : String) (ck : Option String) (now2 : Millis),
        ((rDelete st A k ifm now).2).filterMap (rListScanEntry B pfx ck now2) =
          st.filterMap (rListScanEntry B pfx ck now2)) := by
  have hkne : ∀ k', toRedisKey A k ≠ toRedisKey B k' := fun k' he =>
    hne (toRedisKey_inj A B k k' hA hB he).1
  simp only [rDelete]
  cases hl : rlookup st (toRedisKey A k) with
  | none => exact ⟨fun _ => rfl, fun _ _ _ => rfl⟩
  | some env =>
    have hdel : (∀ k', rlookup (rdel st (toRedisKey A k)) (toRedisKey B k') =
        rlookup st (toRedisKey B k'))
      ∧ (∀ (pfx : String) (ck : Option String) (now2 : Millis),
          (rdel st (toRedisKey A k)).filterMap (rListScanEntry B pfx ck now2) =
            st.filterMap (rListScanEntry B pfx ck now2)) := by
      constructor
      · intro k'
        exact rlookup_rdel_ne st _ _ (hkne k')
      · intro pfx ck now2
        exact filterMap_rdel _ _
          (fun env => rListScanEntry_foreign A B hA hB hgB hne pfx ck now2 k env) st
    cases ifm with
    | some m =>
      dsimp only
      split
      · exact ⟨fun _ => rfl, fun _ _ _ => rfl⟩
      · exact hdel
    | none =>
      dsimp only
      exact hdel

theorem rBatchPut_preserves (A B : Scope) (hA : colonFreeScope A) (hB : colonFreeScope B)
    (hgB : globFreeScope B) (hne : A ≠ B) (now : Millis) :
    ∀ (entries : List BatchPutEntry) (st : RStore),
      (∀ k', rlookup ((rBatchPut st A entries now).2) (toRedisKey B k') =
        rlookup st (toRedisKey B k'))
      ∧ (∀ (pfx : String) (ck : Option String) (now2 : Millis),
          ((rBatchPut st A entries now).2).filterMap (rListScanEntry B pfx ck now2) =
            st.filterMap (rListScanEntry B pfx ck now2)) := by
  intro entries
  induction entries with
  | nil => exact fun st => ⟨fun _ => rfl, fun _ _ _ => rfl⟩
  | cons e rest ih =>
    intro st
    simp only [rBatchPut]
    cases hput : rPut st A e.key e.valueJson ⟨e.ttlSeconds, e.ifMatchVersion⟩ now with
    | mk res st1 =>
      have hp := rPut_preserves A B hA hB hgB hne st e.key e.valueJson
        ⟨e.ttlSeconds, e.ifMatchVersion⟩ now
      rw [hput] at hp
      cases res with
      | error err =>
        dsimp only
        exact hp
      | ok item =>
        dsimp only
        cases hrec : rBatchPut st1 A rest now with
        | mk res2 st2 =>
          have h2 := ih st1
          rw [hrec] at h2
          cases res2 with
          | ok items =>
            dsimp only
            exact ⟨fun k' => (h2.1 k').trans (hp.1 k'),
              fun pfx ck now2 => (h2.2 pfx ck now2).trans (hp.2 pfx ck now2)⟩
          | error err =>
            dsimp only
            exact ⟨fun k' => (h2.1 k').trans (hp.1 k'),
              fun pfx ck now2 => (h2.2 pfx ck now2).trans (hp.2 pfx ck now2)⟩

theorem runReadRedis_congr (B : Scope) (st1 st2 : RStore)
    (hlook : ∀ k, rlookup st1 (toRedisKey B k) = rlookup st2 (toRedisKey B k))
    (hscan : ∀ (pfx : String) (ck : Option String) (now2 : Millis),
      st1.filterMap (rListScanEntry B pfx ck now2) =
        st2.filterMap (rListScanEntry B pfx ck now2)) :
    ∀ (r : ReadOp) (now' : Millis), runReadRedis st1 B r now' = runReadRedis st2 B r now' := by
  intro r now'
  cases r with
  | get k =>
    simp only [runReadRedis, rGet]
    rw [hlook k]
    cases rlookup st2 (toRedisKey B k) with
    | none => rfl
    | some env =>
      by_cases he : isExpired env.expiresAt now' <;> simp [he]
  | batchGet ks =>
    simp only [runReadRedis, rBatchGet]
    exact congrArg ReadResult.items (List.map_congr_left (fun k _ => by rw [hlook k]))
  | list opts =>
    simp only [runReadRedis, rList]
    rw [hscan (opts.pfx.getD "") (decodeCursor opts.cursor) now']

/-- C9 (amended): scope isolation holds unconditionally for the sqlite
adapter — no write (`put`, `delete`, `batchPut`) under scope `A` changes the
result of any read (`get`, `batchGet`, `list`) under a different scope `B` —
and for the redis adapter it holds provided no component of either scope
contains the `':'` separator of the composed backend key or a glob
metacharacter (`'*'`, `'?'`, `'['`, `'\'`) of the `SCAN MATCH` pattern
(without the former the composition is not injective, and without the
latter a scope's scan pattern can match foreign keys, so isolation
fails). -/
theorem c9_scope_isolation :
    ∀ (A B : Scope), A ≠ B →
      (∀ (tbl : Table) (w : WriteOp) (r : ReadOp) (now now' : Millis),
        runReadSql (applyWriteSql tbl A w now) B r now' = runReadSql tbl B r now')
    ∧ (redisSafeScope A → redisSafeScope B →
        ∀ (st : RStore) (w : WriteOp) (r : ReadOp) (now now' : Millis),
          runReadRedis (applyWriteRedis st A w now) B r now' = runReadRedis st B r now') := by
  intro A B hne
  constructor
  · intro tbl w r now now'
    have hw : (applyWriteSql tbl A w now).filter (scopeMatches B) =
        tbl.filter (scopeMatches B) := by
      cases w with
      | put k v o => exact scopeRows_put A B hne tbl k v o now
      | del k ifm => exact scopeRows_delete A B hne tbl k ifm now
      | batchPut es => exact scopeRows_batchPut A B hne now es tbl
    cases r with
    | get k =>
      simp only [runReadSql]
      rw [sqlGet_congr _ _ _ _ _ hw]
    | batchGet ks =>
      simp only [runReadSql, sqlBatchGet]
      exact congrArg ReadResult.items
        (List.map_congr_left (fun k _ => by rw [sqlGet_congr _ _ _ _ _ hw]))
    | list opts =>
      simp only [runReadSql]
      rw [sqlList_congr _ _ _ _ _ hw]
  · intro hsA hsB st w r now now'
    obtain ⟨hA, hgA⟩ := hsA
    obtain ⟨hB, hgB⟩ := hsB
    have hpres : (∀ k', rlookup (applyWriteRedis st A w now) (toRedisKey B k') =
        rlookup st (toRedisKey B k'))
      ∧ (∀ (pfx : String) (ck : Option String) (now2 : Millis),
          (applyWriteRedis st A w now).filterMap (rListScanEntry B pfx ck now2) =
            st.filterMap (rListScanEntry B pfx ck now2)) := by
      cases w with
      | put k v o => exact rPut_preserves A B hA hB hgB hne st k v o now
      | del k ifm => exact rDelete_preserves A B hA hB hgB hne st k ifm now
      | batchPut es => exact rBatchPut_preserves A B hA hB hgB hne now es st
    exact runReadRedis_congr B _ st hpres.1 hpres.2 r now'

/-- C9 witness: two concrete safe scopes differing in `userId`; a put under
the first does not change a get under the second, on either adapter
model. -/
theorem c9_witness :
    ((⟨"t1", "ns", "u1"⟩ : Scope) ≠ ⟨"t1", "ns", "u2"⟩
      ∧ redisSafeScope ⟨"t1", "ns", "u1"⟩ ∧ redisSafeScope ⟨"t1", "ns", "u2"⟩)
  ∧ runReadSql (applyWriteSql [] ⟨"t1", "ns", "u1"⟩ (.put "k" "v" {}) 0)
      ⟨"t1", "ns", "u2"⟩ (.get "k") 0 = runReadSql [] ⟨"t1", "ns", "u2"⟩ (.get "k") 0
  ∧ runReadRedis (applyWriteRedis [] ⟨"t1", "ns", "u1"⟩ (.put "k" "v" {}) 0)
      ⟨"t1", "ns", "u2"⟩ (.get "k") 0 = runReadRedis [] ⟨"t1", "ns", "u2"⟩ (.get "k") 0 :=
  ⟨⟨by decide, by decide, by decide⟩,
    (c9_scope_isolation ⟨"t1", "ns", "u1"⟩ ⟨"t1", "ns", "u2"⟩ (by decide)).1
      [] (.put "k" "v" {}) (.get "k") 0 0,
    (c9_scope_isolation ⟨"t1", "ns", "u1"⟩ ⟨"t1", "ns", "u2"⟩ (by decide)).2
      (by decide) (by decide) [] (.put "k" "v" {}) (.get "k") 0 0⟩

end SyncStorage
